/-
  Verification of the LAWREADER tool-2 core (graph-augmented retrieval and
  auto-linking) against its natural-language specification.

  Shallow embedding of:
    - src/tool2/semantic_matcher.py  (SemanticMatcher.find_matching_scenario)
    - src/tool2/traversal.py         (GraphTraversal.expand_context)
    - src/tool2/auto_linker.py       (AutoLinker: node/edge insertion, article
                                      resolution, semantic dedup, index rebuild,
                                      generate_and_insert)
    - src/tool2/lawreader_main.py    (LawReader.process_query, constructors)

  External collaborators (the embedding model, the FAISS inner-product search
  scores, the LLM chat endpoint with its JSON parse, node-id hashing/timestamps,
  and file I/O) are modelled as explicit oracle parameters; everything else is
  translated from the Python source.  Machine floats of the similarity scores
  are modelled as rationals.
-/
import Mathlib

/-! ## Node and graph data model

A networkx node attribute dict, restricted to the keys the tool-2 code reads
or writes.  `none` models an absent key.  The `created_at` timestamp is set by
the code but never read by it, so it is omitted from the model. -/
structure NodeData where
  type : Option String := none
  «example» : Option String := none
  text : Option String := none
  title : Option String := none
  number : Option String := none
  layman_summary : Option String := none
  auto_generated : Option Bool := none
deriving DecidableEq

/-- A networkx `Graph`: insertion-ordered nodes keyed by id, and undirected
edges carrying a `type` attribute (stored here as `(u, v, type)`). -/
structure Graph where
  nodes : List (String × NodeData) := []
  edges : List (String × String × String) := []
deriving DecidableEq

def nodeIds (g : Graph) : List String := g.nodes.map (·.1)

def getNode (g : Graph) (nid : String) : Option NodeData :=
  (g.nodes.find? (fun p => decide (p.1 = nid))).map (·.2)

/-- `graph.has_edge(u, v)` — symmetric, ignores the edge type. -/
def hasEdge (g : Graph) (u v : String) : Prop :=
  ∃ e ∈ g.edges, (e.1 = u ∧ e.2.1 = v) ∨ (e.1 = v ∧ e.2.1 = u)

instance (g : Graph) (u v : String) : Decidable (hasEdge g u v) := by
  unfold hasEdge; infer_instance

/-- There is an edge between `u` and `v` whose `type` attribute is `t`. -/
def hasEdgeOfType (g : Graph) (u v t : String) : Prop :=
  ∃ e ∈ g.edges, e.2.2 = t ∧ ((e.1 = u ∧ e.2.1 = v) ∨ (e.1 = v ∧ e.2.1 = u))

instance (g : Graph) (u v t : String) : Decidable (hasEdgeOfType g u v t) := by
  unfold hasEdgeOfType; infer_instance

/-- networkx `add_edge` creates endpoints that are not yet present, with an
empty attribute dict. -/
def ensureNode (g : Graph) (nid : String) : Graph :=
  if nid ∈ nodeIds g then g else { g with nodes := g.nodes ++ [(nid, {})] }

/-- Updating a node's attribute dict: keys present in `new` overwrite, other
keys are kept (python `add_node(id, **data)` on an existing node). -/
def mergeData (old new : NodeData) : NodeData :=
  { type := new.type <|> old.type
    «example» := new.«example» <|> old.«example»
    text := new.text <|> old.text
    title := new.title <|> old.title
    number := new.number <|> old.number
    layman_summary := new.layman_summary <|> old.layman_summary
    auto_generated := new.auto_generated <|> old.auto_generated }

/-- `graph.add_node(nid, **d)`: append a fresh node, or merge attributes into
an existing node (position preserved). -/
def setNode (g : Graph) (nid : String) (d : NodeData) : Graph :=
  if nid ∈ nodeIds g then
    { g with nodes := g.nodes.map (fun p => if p.1 = nid then (p.1, mergeData p.2 d) else p) }
  else { g with nodes := g.nodes ++ [(nid, d)] }

/-- `AutoLinker._add_edge_if_missing`: insert an edge of the given type unless
*any* edge (of whatever type) already joins the pair. -/
def add_edge_if_missing (g : Graph) (node1 node2 edge_type : String) : Graph :=
  if hasEdge g node1 node2 then g
  else
    let g1 := ensureNode (ensureNode g node1) node2
    { g1 with edges := g1.edges ++ [(node1, node2, edge_type)] }

/-- The attribute dict `AutoLinker._add_node` builds for each node type. -/
def nodeDataFor (content node_type : String) : NodeData :=
  if node_type = "scenario" then
    { type := some node_type, auto_generated := some true, «example» := some content }
  else if node_type = "principle" then
    { type := some node_type, auto_generated := some true, text := some content }
  else if node_type = "article" then
    { type := some node_type, auto_generated := some true, title := some content,
      layman_summary := some "" }
  else { type := some node_type, auto_generated := some true }

/-- `AutoLinker._add_node`.  `_generate_node_id` (md5 content hash + coarse
timestamp suffix) is the oracle `genId : content → node_type → id`. -/
def add_node (genId : String → String → String) (g : Graph) (content node_type : String) :
    String × Graph :=
  let node_id := genId content node_type
  (node_id, setNode g node_id (nodeDataFor content node_type))

/-- Ids of the nodes of a given `type`, in graph order. -/
def typedIds (g : Graph) (t : String) : List String :=
  g.nodes.filterMap (fun p => if p.2.type = some t then some p.1 else none)

/-- Ids of the scenario-typed nodes, in graph order. -/
def scenarioIds (g : Graph) : List String := typedIds g "scenario"

/-! ## String utilities and the two regular-expression extractions -/

/-- python `\s` (ASCII range, as used by the code on ASCII text). -/
def isPyWhitespace (c : Char) : Bool :=
  c = ' ' || c = '\t' || c = '\n' || c = '\r' || c = '\x0b' || c = '\x0c'

def isAsciiLetter (c : Char) : Bool :=
  ('a' ≤ c && c ≤ 'z') || ('A' ≤ c && c ≤ 'Z')

/-- python `\w` for ASCII text: letters, digits, underscore. -/
def isWordChar (c : Char) : Bool := c.isAlphanum || c = '_'

/-- `str.upper()` (ASCII), kernel-computable list-based form. -/
def strToUpper (s : String) : String := String.mk (s.data.map Char.toUpper)

/-- `str.lower()` (ASCII), kernel-computable list-based form. -/
def strToLower (s : String) : String := String.mk (s.data.map Char.toLower)

/-- `str.strip()`: drop python whitespace from both ends. -/
def strTrim (s : String) : String :=
  String.mk (((s.data.dropWhile isPyWhitespace).reverse.dropWhile isPyWhitespace).reverse)

/-- Case-insensitive literal match of `pat` (given lowercase) at the head of
`l`; returns the rest on success. -/
def matchCaseless : List Char → List Char → Option (List Char)
  | [], rest => some rest
  | _ :: _, [] => none
  | p :: ps, c :: cs => if c.toLower = p then matchCaseless ps cs else none

/-- One attempt of `re.search(r"Article\s*(\d+[A-Z]?)(?:\([^)]+\))*", s, re.IGNORECASE)`
at the head of `l`, returning group 1.  Under `re.IGNORECASE` the class `[A-Z]`
also matches lowercase letters.  The trailing `(?:\([^)]+\))*` does not affect
group 1. -/
def matchArticleNumAt (l : List Char) : Option String :=
  match matchCaseless ['a','r','t','i','c','l','e'] l with
  | none => none
  | some rest =>
    let rest1 := rest.dropWhile isPyWhitespace
    let digits := rest1.takeWhile Char.isDigit
    if digits.isEmpty then none
    else
      match rest1.dropWhile Char.isDigit with
      | c :: _ => if isAsciiLetter c then some (String.mk (digits ++ [c]))
                  else some (String.mk digits)
      | [] => some (String.mk digits)

def searchArticleNum : List Char → Option String
  | [] => none
  | c :: rest =>
    match matchArticleNumAt (c :: rest) with
    | some s => some s
    | none => searchArticleNum rest

/-- Group 1 of the leftmost match of the article-number pattern, as used by
`AutoLinker._find_article_by_number_or_title`. -/
def extractArticleNumber (s : String) : Option String := searchArticleNum s.data

/-- The `(?:\(\w+\))*` tail of the link-number pattern: consume as many
`(\w+)` groups as possible (fuelled; fuel ≥ length of the input suffices). -/
def takeParenGroups : Nat → List Char → List Char × List Char
  | 0, l => ([], l)
  | fuel + 1, l =>
    match l with
    | '(' :: rest =>
      let w := rest.takeWhile isWordChar
      if w.isEmpty then ([], l)
      else
        match rest.dropWhile isWordChar with
        | ')' :: rest2 =>
          let (more, fin) := takeParenGroups fuel rest2
          ('(' :: (w ++ ')' :: more), fin)
        | _ => ([], l)
    | _ => ([], l)

/-- Scanner for `re.findall(r'\b\d+(?:\(\w+\))*', s)`: every maximal digit run
starting at a word boundary, together with any immediately following `(\w+)`
groups.  `prev` is the character before the scan position. -/
def scanNumbers : Nat → Option Char → List Char → List String
  | 0, _, _ => []
  | _ + 1, _, [] => []
  | fuel + 1, prev, c :: rest =>
    if c.isDigit && (match prev with | some p => !isWordChar p | none => true) then
      let digits := (c :: rest).takeWhile Char.isDigit
      let rest1 := (c :: rest).dropWhile Char.isDigit
      let (groups, rest2) := takeParenGroups rest1.length rest1
      let consumed := digits ++ groups
      String.mk consumed :: scanNumbers fuel consumed.getLast? rest2
    else scanNumbers fuel (some c) rest

/-- `re.findall(r'\b\d+(?:\(\w+\))*', articlestring)` from
`AutoLinker.generate_and_insert`. -/
def extractNumbers (s : String) : List String :=
  scanNumbers (s.data.length + 1) none s.data

/-- `needle` matches at the head of `hay`. -/
def matchesAt : List Char → List Char → Bool
  | [], _ => true
  | _ :: _, [] => false
  | n :: ns, h :: hs => n = h && matchesAt ns hs

/-- `needle` occurs somewhere in `hay`. -/
def hasSub (needle : List Char) : List Char → Bool
  | [] => needle.isEmpty
  | c :: rest => matchesAt needle (c :: rest) || hasSub needle rest

/-- python substring test `needle in hay`. -/
def strContains (hay needle : String) : Bool := hasSub needle.data hay.data

/-! ## `AutoLinker._normalize_text` -/

mutual
/-- The shapes of an LLM JSON value fed to `_normalize_text`: a plain string,
a dict (with optional `description` / `title` string values and its `str(item)`
rendering), or a list (`RawItems` is an inlined copy of `List RawItem`, so
that recursion over the nesting stays structural and kernel-computable). -/
inductive RawItem where
  | str (s : String)
  | dict (description title : Option String) (reprStr : String)
  | list (items : RawItems)
inductive RawItems where
  | nil
  | cons (head : RawItem) (tail : RawItems)
end

/-- python `a or b` for an optional string value: falls through on a missing
key or an empty string. -/
def orFalsy (v : Option String) (fallback : String) : String :=
  match v with
  | some s => if s = "" then fallback else s
  | none => fallback

mutual
/-- `AutoLinker._normalize_text`: dicts prefer `description`, then `title`,
then `str(item)`; lists are normalized elementwise and space-joined. -/
def normalizeText : RawItem → String
  | .str s => s
  | .dict d t r => orFalsy d (orFalsy t r)
  | .list items => String.intercalate " " (normalizeItems items)
def normalizeItems : RawItems → List String
  | .nil => []
  | .cons x xs => normalizeText x :: normalizeItems xs
end

/-! ## Argmax (np.argmax / FAISS top-1) and semantic search -/

/-- First element attaining the maximal score — `np.argmax` keeps the first
occurrence of the maximum, and exhaustive inner-product search returns the
best-scoring row first. -/
def firstArgmax {α : Type} : List (α × ℚ) → Option (α × ℚ)
  | [] => none
  | x :: rest =>
    match firstArgmax rest with
    | none => some x
    | some b => if b.2 > x.2 then some b else some x

/-- `AutoLinker._semantic_search` over one index, modelled on the index's
`(id, text)` rows with the embedding inner product as the oracle
`sim : query text → stored text → score`.  The code asks FAISS for the top 3
rows and returns the first whose score clears the threshold — i.e. the
arg-max row iff its score is ≥ threshold.  On an *empty* index FAISS pads its
result with index −1 and the code's `node_ids[idx]` raises an `IndexError`
(modelled as `.error`). -/
def semantic_search (sim : String → String → ℚ) (entries : List (String × String))
    (text : String) (threshold : ℚ) : Except String (Option String) :=
  match firstArgmax (entries.map (fun e => (e.1, sim text e.2))) with
  | none => .error "IndexError: list index out of range"
  | some (node_id, score) => .ok (if threshold ≤ score then some node_id else none)

/-! ## `SemanticMatcher.find_matching_scenario`

`queryBlank` models `not query.strip()`; `sims` is the list of scenario nodes
paired with the cosine similarity of the query embedding to each scenario
embedding (the embedding model is external).  NOTE, faithful to the source:
the function's first statement `threshold = 0.65` discards the caller's
threshold argument. -/
def find_matching_scenario (queryBlank : Bool) (sims : List (String × ℚ))
    (threshold : ℚ) : Option (String × ℚ) :=
  let _caller_threshold := threshold
  let threshold : ℚ := mkRat 65 100
  if queryBlank then none
  else
    match firstArgmax sims with
    | none => none
    | some (best_scenario_id, best_score) =>
      if threshold ≤ best_score then some (best_scenario_id, best_score) else none

/-! ## `AutoLinker._find_article_by_number_or_title` -/

/-- The number-match pass: first graph node (in order) of type `article` whose
`number` attribute equals the extracted number, case-insensitively. -/
def findArticleNumberMatch (g : Graph) (art_num : String) : Option String :=
  (g.nodes.find? (fun p =>
    decide (p.2.type = some "article" ∧
      strToUpper (p.2.number.getD "") = strToUpper art_num))).map (·.1)

/-- The title-match pass: first graph node of type `article` whose normalized
non-empty title is a substring of the normalized query string. -/
def findTitleMatch (g : Graph) (article_str : String) : Option String :=
  (g.nodes.find? (fun p =>
    decide (p.2.type = some "article" ∧
      strTrim (strToLower (p.2.title.getD "")) ≠ "" ∧
      strContains (strTrim (strToLower article_str))
        (strTrim (strToLower (p.2.title.getD ""))) = true))).map (·.1)

/-- `AutoLinker._find_article_by_number_or_title`: try the extracted article
number first; if no number is found *or no node carries it*, fall back to the
title substring match; else `None`.  No semantic search here. -/
def find_article_by_number_or_title (g : Graph) (article_str : String) : Option String :=
  match extractArticleNumber article_str with
  | some art_num =>
    match findArticleNumberMatch g art_num with
    | some nid => some nid
    | none => findTitleMatch g article_str
  | none => findTitleMatch g article_str

/-! ## `GraphTraversal.expand_context` -/

/-- One entry of the context's `principles`/`articles` lists (the python dicts
carry `id` plus fields projected from `all_data`, which is `data` here). -/
structure NodeView where
  id : String
  data : NodeData
deriving DecidableEq

structure Context where
  scenario : NodeView
  principles : List NodeView
  articles : List NodeView
deriving DecidableEq

/-- `graph.get_edge_data(u, v)` projected to its `type` attribute. -/
def getEdgeData (g : Graph) (u v : String) : Option String :=
  (g.edges.find? (fun e =>
    decide ((e.1 = u ∧ e.2.1 = v) ∨ (e.1 = v ∧ e.2.1 = u)))).map (·.2.2)

/-- networkx `graph.neighbors(u)`: the adjacent node ids in edge-insertion
order, without repetition. -/
def neighbors (g : Graph) (u : String) : List String :=
  (g.edges.foldl (fun acc e =>
    if e.1 = u then acc ++ [e.2.1]
    else if e.2.1 = u then acc ++ [e.1]
    else acc) []).dedup

/-- `GraphTraversal.expand_context`: raises `ValueError` for an unknown id
(modelled as `.error`); collects principles reachable over `supports` edges,
then articles reachable from those principles over `explains` edges,
de-duplicated by id. -/
def expand_context (g : Graph) (scenario_id : String) : Except String Context :=
  match getNode g scenario_id with
  | none => .error ("Scenario ID '" ++ scenario_id ++ "' not found in graph")
  | some scenario_data =>
    let principle_nodes : List NodeView :=
      (neighbors g scenario_id).filterMap (fun nb =>
        if getEdgeData g scenario_id nb = some "supports" then
          match getNode g nb with
          | some nd => if nd.type = some "principle" then some ⟨nb, nd⟩ else none
          | none => none
        else none)
    let article_nodes : List NodeView :=
      principle_nodes.foldl (fun acc pv =>
        (neighbors g pv.id).foldl (fun acc2 nb =>
          if getEdgeData g pv.id nb = some "explains" then
            match getNode g nb with
            | some nd =>
              if nd.type = some "article" ∧ ¬ acc2.any (fun a => a.id = nb) then
                acc2 ++ [⟨nb, nd⟩]
              else acc2
            | none => acc2
          else acc2) acc) []
    .ok ⟨⟨scenario_id, scenario_data⟩, principle_nodes, article_nodes⟩

/-! ## `AutoLinker.generate_and_insert` -/

/-- The auto-linker's oracles and in-memory index rows as loaded at
construction time: `genId` for `_generate_node_id`, `sim` for the embedding
inner product, and the `(ids, texts)` rows of the two FAISS indexes. -/
structure LinkerCfg where
  genId : String → String → String
  sim : String → String → ℚ
  pIndex : List (String × String)
  aIndex : List (String × String)

/-- The parsed JSON payload of a *truthy* LLM response.
`scenario = some v` models a present `"scenario"` key whose dict has
(`v = some e`) or lacks (`v = none`) an `"example"` key. -/
structure LLMData where
  scenario : Option (Option String) := none
  principles : List RawItem := []
  articles : List RawItem := []
  links : List String := []

/-- The linker's mutable loop state inside `generate_and_insert`
(the graph plus the counters `p`, `p1`, `a`, `a1` and the two result lists). -/
structure GenState where
  graph : Graph
  p : Nat := 0
  p1 : List String := []
  a : Nat := 0
  a1 : List String := []
  principleIds : List String := []
  articleIds : List String := []
deriving DecidableEq

/-- The inner loop over the numbers extracted from a `links` entry: resolve
each via `_find_article_by_number_or_title` against the current graph and add
an `explains` edge from the new principle when resolved; unresolved numbers
are dropped. -/
def resolveLinkEdges (principle_id : String) (g : Graph) (articlelist : List String) : Graph :=
  articlelist.foldl (fun g n =>
    match find_article_by_number_or_title g ("Article " ++ n) with
    | some articleid => add_edge_if_missing g principle_id articleid "explains"
    | none => g) g

/-- One iteration of the principle loop of `generate_and_insert`: semantic
dedup at threshold 0.92 against the principle index; on a miss, create the
node, extract every `\b\d+(?:\(\w+\))*` number from the positional `links`
entry and add the `explains` edges; in both branches record the id and add
the `supports` edge from the scenario. -/
def process_principle (cfg : LinkerCfg) (links : List String) (scenario_id : String)
    (st : GenState) (item : RawItem) : Except String GenState :=
  let principle_text := normalizeText item
  match semantic_search cfg.sim cfg.pIndex principle_text (mkRat 92 100) with
  | .error e => .error e
  | .ok (some matched) =>
    .ok { st with
          graph := add_edge_if_missing st.graph scenario_id matched "supports"
          principleIds := st.principleIds ++ [matched] }
  | .ok none =>
    let (principle_id, g1) := add_node cfg.genId st.graph principle_text "principle"
    let articlestring := links.getD st.p ""
    let articlelist := extractNumbers articlestring
    let g2 := resolveLinkEdges principle_id g1 articlelist
    .ok { st with
          graph := add_edge_if_missing g2 scenario_id principle_id "supports"
          p := st.p + 1
          p1 := st.p1 ++ [principle_id]
          principleIds := st.principleIds ++ [principle_id] }

/-- Article resolution inside the article loop: exact number/title match
first; only if that fails is semantic search consulted (threshold 0.75).
The boolean records whether semantic search was consulted. -/
def resolve_article (cfg : LinkerCfg) (g : Graph) (article_text : String) :
    Except String (Option String × Bool) :=
  match find_article_by_number_or_title g article_text with
  | some matched => .ok (some matched, false)
  | none =>
    match semantic_search cfg.sim cfg.aIndex article_text (mkRat 75 100) with
    | .error e => .error e
    | .ok r => .ok (r, true)

/-- One iteration of the article loop of `generate_and_insert`: resolve, else
create a new article node (title only). -/
def process_article (cfg : LinkerCfg) (st : GenState) (item : RawItem) :
    Except String GenState :=
  let article_text := normalizeText item
  match resolve_article cfg st.graph article_text with
  | .error e => .error e
  | .ok (some article_id, _) => .ok { st with articleIds := st.articleIds ++ [article_id] }
  | .ok (none, _) =>
    let (article_id, g1) := add_node cfg.genId st.graph article_text "article"
    .ok { st with
          graph := g1
          a := st.a + 1
          a1 := st.a1 ++ [article_id]
          articleIds := st.articleIds ++ [article_id] }

def runPrinciples (cfg : LinkerCfg) (links : List String) (scenario_id : String) :
    GenState → List RawItem → Except String GenState
  | st, [] => .ok st
  | st, item :: rest =>
    match process_principle cfg links scenario_id st item with
    | .error e => .error e
    | .ok st' => runPrinciples cfg links scenario_id st' rest

def runArticles (cfg : LinkerCfg) : GenState → List RawItem → Except String GenState
  | st, [] => .ok st
  | st, item :: rest =>
    match process_article cfg st item with
    | .error e => .error e
    | .ok st' => runArticles cfg st' rest

/-- `AutoLinker._update_faiss_after_new_nodes`, principle half: the rebuilt
index rows are the graph's principle-typed nodes that carry a truthy `text`
attribute, in graph order (the embedding of row i is derived from `texts[i]`,
so the rows are the whole index state). -/
def rebuildPrincipleIndex (g : Graph) : List (String × String) :=
  g.nodes.filterMap (fun p =>
    if p.2.type = some "principle" then
      match p.2.text with
      | some t => if t = "" then none else some (p.1, t)
      | none => none
    else none)

/-- `AutoLinker._update_faiss_after_new_nodes`, article half.  Note it reads
the `text` attribute, while `_add_node` stores article content under `title`. -/
def rebuildArticleIndex (g : Graph) : List (String × String) :=
  g.nodes.filterMap (fun p =>
    if p.2.type = some "article" then
      match p.2.text with
      | some t => if t = "" then none else some (p.1, t)
      | none => none
    else none)

/-- The dictionary `generate_and_insert` returns on success. -/
structure GenResult where
  scenario : String
  principles : List String
  articles : List String
  p : Nat
  p1 : List String
  a : Nat
  a1 : List String
deriving DecidableEq

inductive GenOutcome where
  | failure (error : String)
  | success (res : GenResult)
deriving DecidableEq

/-- What a call to `generate_and_insert` leaves behind: its return value, the
(possibly) mutated graph, the rebuilt in-memory/persisted index rows, and the
number of `_call_llm` invocations made. -/
structure GenReturn where
  outcome : GenOutcome
  graph : Graph
  pIndex : List (String × String)
  aIndex : List (String × String)
  llmCalls : Nat
deriving DecidableEq

/-- `AutoLinker.generate_and_insert`.  `llmData` is the oracle for
`_call_llm(query)`: `none` models a falsy result (network/parse failure or an
empty object).  A `.error` result models an uncaught python exception escaping
the method. -/
def generate_and_insert (cfg : LinkerCfg) (llmData : Option LLMData) (g : Graph)
    (query : String) : Except String GenReturn :=
  match llmData with
  | none => .ok ⟨.failure "LLM failed.", g, cfg.pIndex, cfg.aIndex, 1⟩
  | some llm_data =>
    let scenario_text := match llm_data.scenario with
      | some (some e) => e
      | some none => query
      | none => query
    let (scenario_id, g0) := add_node cfg.genId g scenario_text "scenario"
    match runPrinciples cfg llm_data.links scenario_id ⟨g0, 0, [], 0, [], [], []⟩
        llm_data.principles with
    | .error e => .error e
    | .ok st1 =>
      match runArticles cfg st1 llm_data.articles with
      | .error e => .error e
      | .ok st2 =>
        .ok ⟨.success ⟨scenario_id, st2.principleIds, st2.articleIds,
                       st2.p, st2.p1, st2.a, st2.a1⟩,
             st2.graph, rebuildPrincipleIndex st2.graph, rebuildArticleIndex st2.graph, 1⟩

/-! ## `LawReader.process_query` -/

/-- Everything `process_query` consults: the matcher state (`blank` models
`not query.strip()`, `sims` the scenario cosine similarities for this query),
the shared graph, the answer simplifier as an oracle (its failure models an
exception inside `simplify_answer`), the measured elapsed time, and the
auto-linker's configuration and `_call_llm` oracle. -/
structure PQEnv where
  blank : Bool
  sims : List (String × ℚ)
  graph : Graph
  simplify : Context → Except String String
  elapsed : ℚ
  genId : String → String → String
  sim : String → String → ℚ
  pIndex : List (String × String)
  aIndex : List (String × String)
  llmData : Option LLMData

def pqLinkerCfg (env : PQEnv) : LinkerCfg := ⟨env.genId, env.sim, env.pIndex, env.aIndex⟩

/-- The `method_used`/`success`/`answer` triple a non-raising path of
`process_query` writes into its result dict. -/
structure PQOut where
  method_used : String
  success : Bool
  answer : String
deriving DecidableEq

/-- The graph-match path: expand the matched scenario, simplify. -/
def pqGraphPath (env : PQEnv) (scenario_id : String) : Except String PQOut :=
  match expand_context env.graph scenario_id with
  | .error e => .error e
  | .ok context =>
    match env.simplify context with
    | .error e => .error e
    | .ok answer => .ok ⟨"graph_match", true, answer⟩

/-- The LLM-fallback path: `generate_and_insert`; on a successful insert the
updated graph is shared with matcher and traversal, saved, the matcher
embeddings refreshed (pure bookkeeping here), and the new scenario expanded
and simplified; on `success=False` the error message becomes the answer. -/
def pqLLMPath (env : PQEnv) (query : String) : Except String PQOut :=
  match generate_and_insert (pqLinkerCfg env) env.llmData env.graph query with
  | .error e => .error e
  | .ok ret =>
    match ret.outcome with
    | .failure err =>
      .ok ⟨"llm_generation", false, "Unable to process your legal query. Error: " ++ err⟩
    | .success res =>
      match expand_context ret.graph res.scenario with
      | .error e => .error e
      | .ok context =>
        match env.simplify context with
        | .error e => .error e
        | .ok answer => .ok ⟨"llm_generation", true, answer⟩

/-- The body of `process_query`'s `try` block, paired with the number of
auto-linker (hence LLM) invocations it performed.  Unless `force_llm`, the
matcher is tried first (with the caller's threshold, which the matcher
overrides); a miss falls through to the LLM path exactly as the python
`force_llm = True` assignment does. -/
def pqCore (env : PQEnv) (query : String) (threshold : ℚ) (force_llm : Bool) :
    Except String PQOut × Nat :=
  match (if force_llm then none else find_matching_scenario env.blank env.sims threshold) with
  | some (scenario_id, _score) => (pqGraphPath env scenario_id, 0)
  | none => (pqLLMPath env query, 1)

/-- The result dict of `process_query` (the fields the claims speak about,
plus the count of auto-linker invocations). -/
structure PQResult where
  query : String
  processing_time : ℚ
  method_used : String
  success : Bool
  answer : String
  llmCalls : Nat
deriving DecidableEq

/-- `LawReader.process_query`: the `try` body's updates on the initial result
dict; any exception is caught by `except Exception` which records
`success=False` and a "System error ..." answer on the result as it stood
(method_used still `''`); `finally` always stamps `processing_time`. -/
def process_query (env : PQEnv) (query : String) (threshold : ℚ) (force_llm : Bool) :
    PQResult :=
  match pqCore env query threshold force_llm with
  | (.ok out, n) => ⟨query, env.elapsed, out.method_used, out.success, out.answer, n⟩
  | (.error e, n) =>
    ⟨query, env.elapsed, "", false, "System error while processing your query: " ++ e, n⟩

/-! ## Constructor path handling (claim C10) -/

/-- The path state `AutoLinker.__init__` stores: `self.graph_path` is
hard-coded, only the advisory lock's sidecar name uses the argument. -/
structure AutoLinkerInit where
  graph_path : String
  graph_lock_path : String
deriving DecidableEq

def autoLinker_init (graph_path : String) : AutoLinkerInit :=
  { graph_path := "law_graphTest.gpickle"
    graph_lock_path := graph_path ++ ".lock" }

/-- `self.graph_path` as stored by `SemanticMatcher.__init__`. -/
def semanticMatcher_init (graph_path : String) : String :=
  let _ := graph_path
  "law_graphTest.gpickle"

/-- `self.graph_path` as stored by `GraphTraversal.__init__`. -/
def graphTraversal_init (graph_path : String) : String :=
  let _ := graph_path
  "law_graphTest.gpickle"

/-- The path state `LawReader.__init__` produces: its own `self.graph_path`
is hard-coded and the *argument* is forwarded to the three components. -/
structure LawReaderInit where
  graph_path : String
  matcher_graph_path : String
  traversal_graph_path : String
  auto_linker : AutoLinkerInit
deriving DecidableEq

def lawReader_init (graph_path : String) : LawReaderInit :=
  { graph_path := "law_graphTest.gpickle"
    matcher_graph_path := semanticMatcher_init graph_path
    traversal_graph_path := graphTraversal_init graph_path
    auto_linker := autoLinker_init graph_path }

/-- `main()` of lawreader_main.py: the `--graph-path` option is parsed but the
`LawReader` is constructed with the literal `"law_graphTest.gpickle"`. -/
def cli_main_lawreader (args_graph_path : String) : LawReaderInit :=
  let _ := args_graph_path
  lawReader_init "law_graphTest.gpickle"

/-! ## Spec-side definition (used to state claim C4's counterexample)

Modelled from the spec: the "referenced article numbers" of a links entry
`"Principle N -> Article X,Y,..."` are the numbers named *after* the arrow —
the articles the entry links the principle to. -/
def afterArrow : List Char → Option (List Char)
  | [] => none
  | '-' :: '>' :: rest => some rest
  | _ :: rest => afterArrow rest

def specReferencedArticleNumbers (entry : String) : List String :=
  match afterArrow entry.data with
  | some rest => extractNumbers (String.mk rest)
  | none => []

/-- Decidable equality on `Except`, needed to evaluate run results in the
concrete witnesses. -/
instance {e a : Type} [DecidableEq e] [DecidableEq a] : DecidableEq (Except e a)
  | .error x, .error y =>
    if h : x = y then isTrue (by rw [h]) else isFalse (fun hc => by cases hc; exact h rfl)
  | .error _, .ok _ => isFalse (fun hc => by cases hc)
  | .ok _, .error _ => isFalse (fun hc => by cases hc)
  | .ok x, .ok y =>
    if h : x = y then isTrue (by rw [h]) else isFalse (fun hc => by cases hc; exact h rfl)

/-! ## Concrete instances used by the claim witnesses and counterexamples -/

/-- A deterministic stand-in for `_generate_node_id` on concrete runs. -/
def genIdW (content node_type : String) : String := node_type ++ ":" ++ content

/-- Witness data for C7: one article node numbered 19. -/
def gW7 : Graph :=
  { nodes := [("A19", { type := some "article", title := some "freedom of speech",
                        number := some "19" })]
    edges := [] }

def cfgW7 : LinkerCfg := ⟨genIdW, fun _ _ => 0, [], [("A19", "irrelevant")]⟩

/-- Witness data for C6: a principle index with one row whose similarity to
every query is 0.95 ≥ 0.92. -/
def cfgW6 : LinkerCfg := ⟨genIdW, fun _ _ => mkRat 95 100, [("P0", "t0")], []⟩

def stW6 : GenState := ⟨⟨[("P0", { type := some "principle", text := some "t0" })], []⟩,
                        0, [], 0, [], [], []⟩

/-- Witness environment for C2: one scenario node the matcher hits. -/
def envW2 : PQEnv :=
  { blank := false
    sims := [("s1", mkRat 8 10)]
    graph := { nodes := [("s1", { type := some "scenario", «example» := some "ex" })], edges := [] }
    simplify := fun _ => .ok "ANS"
    elapsed := mkRat 3 2
    genId := genIdW
    sim := fun _ _ => 0
    pIndex := [("P0", "t0")]
    aIndex := []
    llmData := none }

def ctxW2 : Context :=
  ⟨⟨"s1", { type := some "scenario", «example» := some "ex" }⟩, [], []⟩

/-- Witness environment for C9: the matcher hits a scenario id that is absent
from the graph, so `expand_context` raises. -/
def envW9 : PQEnv :=
  { blank := false
    sims := [("sX", mkRat 8 10)]
    graph := ⟨[], []⟩
    simplify := fun _ => .ok "a"
    elapsed := mkRat 3 2
    genId := genIdW
    sim := fun _ _ => 0
    pIndex := []
    aIndex := []
    llmData := none }

/-- The loop invariant for claim C3, relative to the pre-run graph `g0` and
the freshly inserted scenario id `sid`: the scenario-typed ids are exactly the
old ones plus `sid`, every node entry of `sid` is scenario-typed, every edge
touching `sid` is a `supports` edge, and every recorded principle id has a
`supports` edge to the scenario. -/
def C3Inv (g0 : Graph) (sid : String) (st : GenState) : Prop :=
  scenarioIds st.graph = scenarioIds g0 ++ [sid] ∧
  (∀ d, (sid, d) ∈ st.graph.nodes → d.type = some "scenario") ∧
  (∀ e ∈ st.graph.edges, (e.1 = sid ∨ e.2.1 = sid) → e.2.2 = "supports") ∧
  (∀ pid ∈ st.principleIds, hasEdgeOfType st.graph sid pid "supports")

/-- Witness data for C3: empty graph, one LLM principle below the dedup
threshold, no LLM articles, no links. -/
def cfgW3 : LinkerCfg := ⟨genIdW, fun _ _ => 0, [("P0", "t0")], []⟩

def dW3 : LLMData :=
  { scenario := some (some "ex"), principles := [.str "newp"], articles := [], links := [] }

def resW3 : GenResult :=
  ⟨"scenario:ex", ["principle:newp"], [], 1, ["principle:newp"], 0, []⟩

def retW3 : GenReturn :=
  { outcome := .success resW3
    graph :=
      { nodes := [("scenario:ex",
                    { type := some "scenario", «example» := some "ex",
                      auto_generated := some true }),
                  ("principle:newp",
                    { type := some "principle", text := some "newp",
                      auto_generated := some true })]
        edges := [("scenario:ex", "principle:newp", "supports")] }
    pIndex := [("principle:newp", "newp")]
    aIndex := []
    llmCalls := 1 }

/-- Counterexample data for C4: articles numbered "1" and "2"; the LLM links
entry "Principle 1 -> Article 2" references only article 2. -/
def gC4 : Graph :=
  { nodes := [("A1", { type := some "article", title := some "right one",
                       number := some "1" }),
              ("A2", { type := some "article", title := some "right two",
                       number := some "2" }),
              ("P0", { type := some "principle", text := some "t0" })]
    edges := [] }

def cfgC4 : LinkerCfg := ⟨genIdW, fun _ _ => 0, [("P0", "t0")], [("A1", "x")]⟩

def dC4 : LLMData :=
  { scenario := some (some "ex"), principles := [.str "newp"], articles := [],
    links := ["Principle 1 -> Article 2"] }

def stC4 : GenState := ⟨gC4, 0, [], 0, [], [], []⟩

/-- Projection of a linker run used to state closed counterexamples. -/
def genReturnOf (r : Except String GenReturn) : GenReturn :=
  match r with
  | .ok ret => ret
  | .error _ => ⟨.failure "", ⟨[], []⟩, [], [], 0⟩

def genResOf (r : Except String GenReturn) : GenResult :=
  match (genReturnOf r).outcome with
  | .success res => res
  | .failure _ => ⟨"", [], [], 0, [], 0, []⟩

/-- Counterexample/witness data for C5: one LLM article that resolves nowhere
and is therefore created as a new article node (title only, no `text`). -/
def cfgC5 : LinkerCfg := ⟨genIdW, fun _ _ => 0, [("P0", "t0")], [("A0", "a0")]⟩

def dC5 : LLMData :=
  { scenario := some (some "ex"), principles := [], articles := [.str "zzz"], links := [] }

def resC5 : GenResult := ⟨"scenario:ex", [], ["article:zzz"], 0, [], 1, ["article:zzz"]⟩

def retC5 : GenReturn :=
  { outcome := .success resC5
    graph :=
      { nodes := [("scenario:ex",
                    { type := some "scenario", «example» := some "ex",
                      auto_generated := some true }),
                  ("article:zzz",
                    { type := some "article", title := some "zzz",
                      layman_summary := some "", auto_generated := some true })]
        edges := [] }
    pIndex := []
    aIndex := []
    llmCalls := 1 }

/-- The common shape of both halves of `_update_faiss_after_new_nodes`:
the `(id, text)` rows of the nodes of one type that carry a truthy `text`. -/
def indexRows (ty : String) (l : List (String × NodeData)) : List (String × String) :=
  l.filterMap (fun p =>
    if p.2.type = some ty then
      match p.2.text with
      | some t => if t = "" then none else some (p.1, t)
      | none => none
    else none)

/-! ## Helper lemmas: argmax and semantic search -/

theorem firstArgmax_eq_none {α : Type} {l : List (α × ℚ)} :
    firstArgmax l = none ↔ l = [] := by
  cases l with
  | nil => simp [firstArgmax]
  | cons x rest =>
    simp only [firstArgmax]
    cases h : firstArgmax rest with
    | none => simp
    | some b => by_cases hb : b.2 > x.2 <;> simp [hb]

theorem firstArgmax_mem {α : Type} {l : List (α × ℚ)} {b : α × ℚ}
    (h : firstArgmax l = some b) : b ∈ l := by
  induction l with
  | nil => simp [firstArgmax] at h
  | cons x rest ih =>
    simp only [firstArgmax] at h
    cases hr : firstArgmax rest with
    | none => rw [hr] at h; simp at h; simp [h]
    | some c =>
      rw [hr] at h
      by_cases hc : c.2 > x.2
      · simp [hc] at h; subst h; exact List.mem_cons_of_mem _ (ih hr)
      · simp [hc] at h; simp [h]

theorem firstArgmax_le {α : Type} : ∀ {l : List (α × ℚ)} {b : α × ℚ},
    firstArgmax l = some b → ∀ x ∈ l, x.2 ≤ b.2 := by
  intro l
  induction l with
  | nil => intro b h; simp [firstArgmax] at h
  | cons x rest ih =>
    intro b h
    simp only [firstArgmax] at h
    cases hr : firstArgmax rest with
    | none =>
      rw [hr] at h
      cases h
      have : rest = [] := firstArgmax_eq_none.mp hr
      subst this
      simp
    | some c =>
      rw [hr] at h
      by_cases hc : c.2 > x.2
      · simp only [hc, if_pos] at h
        cases h
        intro y hy
        rcases List.mem_cons.mp hy with rfl | hy'
        · exact le_of_lt hc
        · exact ih hr y hy'
      · simp only [hc, if_neg, not_false_iff] at h
        cases h
        intro y hy
        rcases List.mem_cons.mp hy with rfl | hy'
        · exact le_rfl
        · exact le_trans (ih hr y hy') (not_lt.mp hc)

theorem semantic_search_mem {sim : String → String → ℚ} {entries : List (String × String)}
    {text : String} {t : ℚ} {nid : String}
    (h : semantic_search sim entries text t = .ok (some nid)) :
    ∃ e ∈ entries, nid = e.1 ∧ t ≤ sim text e.2 := by
  unfold semantic_search at h
  cases hfa : firstArgmax (entries.map (fun e => (e.1, sim text e.2))) with
  | none => rw [hfa] at h; exact absurd h (by simp)
  | some b =>
    rw [hfa] at h
    obtain ⟨bid, bscore⟩ := b
    simp only [Except.ok.injEq] at h
    by_cases ht : t ≤ bscore
    · simp only [ht, if_pos, Option.some.injEq] at h
      subst h
      have hmem := firstArgmax_mem hfa
      obtain ⟨e, he, heq⟩ := List.mem_map.mp hmem
      refine ⟨e, he, ?_, ?_⟩
      · exact (congrArg Prod.fst heq).symm
      · have := congrArg Prod.snd heq
        simp at this
        rw [this]; exact ht
    · simp [ht] at h

theorem semantic_search_of_ge {sim : String → String → ℚ} {entries : List (String × String)}
    {text : String} {t : ℚ}
    (h : ∃ e ∈ entries, t ≤ sim text e.2) :
    ∃ nid, semantic_search sim entries text t = .ok (some nid) := by
  obtain ⟨e, he, hge⟩ := h
  unfold semantic_search
  cases hfa : firstArgmax (entries.map (fun e => (e.1, sim text e.2))) with
  | none =>
    have : entries.map (fun e => (e.1, sim text e.2)) = [] := firstArgmax_eq_none.mp hfa
    rw [List.map_eq_nil_iff] at this
    subst this
    simp at he
  | some b =>
    have hle := firstArgmax_le hfa (e.1, sim text e.2) (List.mem_map_of_mem _ he)
    have : t ≤ b.2 := le_trans hge hle
    exact ⟨b.1, by simp [this]⟩

theorem semantic_search_none_of_lt {sim : String → String → ℚ}
    {entries : List (String × String)} {text : String} {t : ℚ}
    (hne : entries ≠ []) (h : ∀ e ∈ entries, sim text e.2 < t) :
    semantic_search sim entries text t = .ok none := by
  unfold semantic_search
  cases hfa : firstArgmax (entries.map (fun e => (e.1, sim text e.2))) with
  | none =>
    have : entries.map (fun e => (e.1, sim text e.2)) = [] := firstArgmax_eq_none.mp hfa
    rw [List.map_eq_nil_iff] at this
    exact absurd this hne
  | some b =>
    have hmem := firstArgmax_mem hfa
    obtain ⟨e, he, heq⟩ := List.mem_map.mp hmem
    have : b.2 = sim text e.2 := by rw [← heq]
    have hlt : b.2 < t := this ▸ h e he
    simp [not_le.mpr hlt]

/-! ## Helper lemmas: article lookup -/

theorem findArticleNumberMatch_of_exists {g : Graph} {n : String}
    (h : ∃ p ∈ g.nodes, p.2.type = some "article" ∧
         strToUpper (p.2.number.getD "") = strToUpper n) :
    ∃ nid d, findArticleNumberMatch g n = some nid ∧ (nid, d) ∈ g.nodes ∧
      d.type = some "article" ∧ strToUpper (d.number.getD "") = strToUpper n := by
  obtain ⟨p, hp, hty, hnum⟩ := h
  have hsome : (g.nodes.find? (fun p =>
      decide (p.2.type = some "article" ∧
        strToUpper (p.2.number.getD "") = strToUpper n))).isSome := by
    rw [List.find?_isSome]
    exact ⟨p, hp, by simp [hty, hnum]⟩
  obtain ⟨q, hq⟩ := Option.isSome_iff_exists.mp hsome
  have hqpred := List.find?_some hq
  have hqmem := List.mem_of_find?_eq_some hq
  simp only [decide_eq_true_eq] at hqpred
  refine ⟨q.1, q.2, ?_, by simpa using hqmem, hqpred.1, hqpred.2⟩
  unfold findArticleNumberMatch
  rw [hq]
  rfl

theorem findArticleNumberMatch_mem {g : Graph} {n nid : String}
    (h : findArticleNumberMatch g n = some nid) :
    ∃ d, (nid, d) ∈ g.nodes ∧ d.type = some "article" := by
  unfold findArticleNumberMatch at h
  cases hf : g.nodes.find? (fun p =>
      decide (p.2.type = some "article" ∧ strToUpper (p.2.number.getD "") = strToUpper n)) with
  | none => rw [hf] at h; simp at h
  | some q =>
    rw [hf] at h
    simp only [Option.map_some', Option.some.injEq] at h
    have hqpred := List.find?_some hf
    have hqmem := List.mem_of_find?_eq_some hf
    simp only [decide_eq_true_eq] at hqpred
    exact ⟨q.2, by subst h; simpa using hqmem, hqpred.1⟩

theorem findTitleMatch_mem {g : Graph} {s nid : String}
    (h : findTitleMatch g s = some nid) :
    ∃ d, (nid, d) ∈ g.nodes ∧ d.type = some "article" := by
  unfold findTitleMatch at h
  cases hf : g.nodes.find? (fun p =>
      decide (p.2.type = some "article" ∧
        strTrim (strToLower (p.2.title.getD "")) ≠ "" ∧
        strContains (strTrim (strToLower s))
          (strTrim (strToLower (p.2.title.getD ""))) = true)) with
  | none => rw [hf] at h; exact absurd h (by simp)
  | some q =>
    rw [hf] at h
    simp only [Option.map_some', Option.some.injEq] at h
    have hqpred := List.find?_some hf
    have hqmem := List.mem_of_find?_eq_some hf
    simp only [decide_eq_true_eq] at hqpred
    exact ⟨q.2, by subst h; simpa using hqmem, hqpred.1⟩

/-- Any id produced by `_find_article_by_number_or_title` names an
article-typed node of the graph. -/
theorem find_article_mem {g : Graph} {s nid : String}
    (h : find_article_by_number_or_title g s = some nid) :
    ∃ d, (nid, d) ∈ g.nodes ∧ d.type = some "article" := by
  unfold find_article_by_number_or_title at h
  cases hx : extractArticleNumber s with
  | none => simp only [hx] at h; exact findTitleMatch_mem h
  | some n =>
    simp only [hx] at h
    cases hm : findArticleNumberMatch g n with
    | none => simp only [hm] at h; exact findTitleMatch_mem h
    | some m => simp only [hm] at h; cases h; exact findArticleNumberMatch_mem hm

/-- C1.  The spec says `find_matching_scenario(query, t)` returns the arg-max
scenario iff its score is ≥ the caller-supplied threshold `t`, and that a
returned match's score is never below `t`.  The code overrides the argument
with `threshold = 0.65` on entry, so with caller threshold 0.9 and a single
scenario at similarity 0.7 it *does* return the match, whose score 0.7 is
below the caller's 0.9 — evaluating the model at the failing input. -/
theorem C1_threshold_override :
    find_matching_scenario false [("s1", mkRat 7 10)] (mkRat 9 10) = some ("s1", mkRat 7 10) ∧
    mkRat 7 10 < mkRat 9 10 := by
  constructor
  · decide
  · decide

/-- C8.  When `_call_llm` yields a falsy result (network/parse failure, or a
response with no parseable JSON object), `generate_and_insert` returns
`{"success": False, "error": "LLM failed."}` without raising (`.ok`, not
`.error`), the graph is the untouched `g`, and both index states are
untouched; exactly the one LLM call was made. -/
theorem C8_llm_failure_safe (cfg : LinkerCfg) (g : Graph) (query : String) :
    generate_and_insert cfg none g query =
      .ok ⟨.failure "LLM failed.", g, cfg.pIndex, cfg.aIndex, 1⟩ := rfl

/-- C10.  Every constructor — `AutoLinker`, `SemanticMatcher`,
`GraphTraversal`, `LawReader`, and the CLI `main()` with its `--graph-path`
option — stores the hard-coded `"law_graphTest.gpickle"` as the graph path
regardless of the supplied argument, so any two argument values yield the
same loaded/saved graph file and the same behaviour.  (Only the advisory
lock's sidecar *name* still derives from the argument; the data file does
not.) -/
theorem C10_graph_path_hardcoded (p1 p2 : String) :
    (autoLinker_init p1).graph_path = "law_graphTest.gpickle" ∧
    semanticMatcher_init p1 = "law_graphTest.gpickle" ∧
    graphTraversal_init p1 = "law_graphTest.gpickle" ∧
    (lawReader_init p1).graph_path = "law_graphTest.gpickle" ∧
    (autoLinker_init p1).graph_path = (autoLinker_init p2).graph_path ∧
    semanticMatcher_init p1 = semanticMatcher_init p2 ∧
    graphTraversal_init p1 = graphTraversal_init p2 ∧
    (lawReader_init p1).graph_path = (lawReader_init p2).graph_path ∧
    cli_main_lawreader p1 = cli_main_lawreader p2 :=
  ⟨rfl, rfl, rfl, rfl, rfl, rfl, rfl, rfl, rfl⟩

/-! ## Helper lemmas: typed node ids under graph operations -/

theorem typedIds_ensureNode (g : Graph) (i t : String) :
    typedIds (ensureNode g i) t = typedIds g t := by
  unfold ensureNode
  by_cases hmem : i ∈ nodeIds g
  · simp [hmem]
  · simp [hmem, typedIds, List.filterMap_append]

theorem typedIds_add_edge_if_missing (g : Graph) (a b et t : String) :
    typedIds (add_edge_if_missing g a b et) t = typedIds g t := by
  unfold add_edge_if_missing
  by_cases he : hasEdge g a b
  · simp [he]
  · simp only [he, if_neg, not_false_iff]
    show typedIds { ensureNode (ensureNode g a) b with
        edges := (ensureNode (ensureNode g a) b).edges ++ [(a, b, et)] } t = typedIds g t
    have h1 : typedIds { ensureNode (ensureNode g a) b with
        edges := (ensureNode (ensureNode g a) b).edges ++ [(a, b, et)] } t
        = typedIds (ensureNode (ensureNode g a) b) t := rfl
    rw [h1, typedIds_ensureNode, typedIds_ensureNode]

theorem typedIds_setNode_of_ne {g : Graph} {i t nt : String} {d : NodeData}
    (hty : d.type = some nt) (hne : nt ≠ t) (hnot : i ∉ typedIds g t) :
    typedIds (setNode g i d) t = typedIds g t := by
  unfold setNode
  by_cases hmem : i ∈ nodeIds g
  · simp only [hmem, if_pos]
    unfold typedIds at hnot ⊢
    simp only [List.filterMap_map]
    apply List.filterMap_congr
    intro p hp
    simp only [Function.comp_apply]
    by_cases hpi : p.1 = i
    · have hpt : p.2.type ≠ some t := by
        intro hcon
        exact hnot (List.mem_filterMap.mpr ⟨p, hp, by simp [hcon, hpi]⟩)
      have hmty : (mergeData p.2 d).type = some nt := by
        simp [mergeData, hty]
      simp [hpi, hmty, hne, hpt]
    · simp [hpi]
  · simp only [hmem, if_neg, not_false_iff]
    unfold typedIds
    simp only [List.filterMap_append, List.filterMap_cons, List.filterMap_nil]
    rw [hty]
    simp [hne]

theorem typedIds_setNode_fresh {g : Graph} {i t : String} {d : NodeData}
    (hty : d.type = some t) (hfresh : i ∉ nodeIds g) :
    typedIds (setNode g i d) t = typedIds g t ++ [i] := by
  unfold setNode
  simp only [hfresh, if_neg, not_false_iff]
  unfold typedIds
  simp [List.filterMap_append, hty]

/-- C7.  If the LLM article string yields an article number (via the code's
`Article\s*(\d+[A-Z]?)` extraction) that equals — case-insensitively — the
`number` attribute of some existing article node, then article resolution
returns such a node through the exact-number match with semantic search *not
consulted* (flag `false`), regardless of what semantic search would score;
and (same configuration) semantic search is consulted only on inputs where
`_find_article_by_number_or_title` found nothing. -/
theorem C7_article_number_precedence (cfg : LinkerCfg) (g : Graph) (s n : String)
    (h1 : extractArticleNumber s = some n)
    (h2 : ∃ p ∈ g.nodes, p.2.type = some "article" ∧
          strToUpper (p.2.number.getD "") = strToUpper n) :
    (∃ nid d, resolve_article cfg g s = .ok (some nid, false) ∧
       (nid, d) ∈ g.nodes ∧ d.type = some "article" ∧
       strToUpper (d.number.getD "") = strToUpper n) ∧
    (∀ s' r, resolve_article cfg g s' = .ok (r, true) →
       find_article_by_number_or_title g s' = none) := by
  constructor
  · obtain ⟨nid, d, hm, hmem, hty, hnum⟩ := findArticleNumberMatch_of_exists h2
    have hfind : find_article_by_number_or_title g s = some nid := by
      unfold find_article_by_number_or_title
      simp only [h1, hm]
    refine ⟨nid, d, ?_, hmem, hty, hnum⟩
    unfold resolve_article
    simp only [hfind]
  · intro s' r h
    unfold resolve_article at h
    cases hf : find_article_by_number_or_title g s' with
    | none => rfl
    | some m =>
      rw [hf] at h
      simp at h

/-- Witness for C7: the graph `gW7` holds an article node numbered "19"; the
string "Article 19(1) free speech" extracts number "19"; the theorem applies. -/
theorem C7_article_number_precedence_witness :
    extractArticleNumber "Article 19(1) free speech" = some "19" ∧
    (∃ p ∈ gW7.nodes, p.2.type = some "article" ∧
       strToUpper (p.2.number.getD "") = strToUpper "19") ∧
    ((∃ nid d, resolve_article cfgW7 gW7 "Article 19(1) free speech" = .ok (some nid, false) ∧
        (nid, d) ∈ gW7.nodes ∧ d.type = some "article" ∧
        strToUpper (d.number.getD "") = strToUpper "19") ∧
     (∀ s' r, resolve_article cfgW7 gW7 s' = .ok (r, true) →
        find_article_by_number_or_title gW7 s' = none)) :=
  ⟨by decide, by decide,
   C7_article_number_precedence cfgW7 gW7 "Article 19(1) free speech" "19"
     (by decide) (by decide)⟩

/-- C6.  If the normalized LLM principle text has similarity ≥ 0.92 to some
row of the principle index, the principle loop takes the dedup branch: the
recorded principle id is a pre-existing index row's id (one scoring ≥ 0.92),
no new principle node is created (`p`/`p1` untouched, the graph's
principle-typed node ids unchanged), and only the `supports` edge is added. -/
theorem C6_principle_dedup (cfg : LinkerCfg) (links : List String) (scenario_id : String)
    (st : GenState) (item : RawItem)
    (h : ∃ e ∈ cfg.pIndex, mkRat 92 100 ≤ cfg.sim (normalizeText item) e.2) :
    ∃ pid st', process_principle cfg links scenario_id st item = .ok st' ∧
      (∃ e ∈ cfg.pIndex, pid = e.1 ∧ mkRat 92 100 ≤ cfg.sim (normalizeText item) e.2) ∧
      st'.principleIds = st.principleIds ++ [pid] ∧
      st'.p1 = st.p1 ∧ st'.p = st.p ∧
      typedIds st'.graph "principle" = typedIds st.graph "principle" ∧
      st'.graph = add_edge_if_missing st.graph scenario_id pid "supports" := by
  obtain ⟨pid, hss⟩ := semantic_search_of_ge h
  have hmem := semantic_search_mem hss
  have hpp : process_principle cfg links scenario_id st item =
      .ok { st with graph := add_edge_if_missing st.graph scenario_id pid "supports"
                    principleIds := st.principleIds ++ [pid] } := by
    unfold process_principle
    simp only [hss]
  exact ⟨pid, _, hpp, hmem, rfl, rfl, rfl,
         typedIds_add_edge_if_missing _ _ _ _ _, rfl⟩

/-- Witness for C6: one index row at similarity 0.95 ≥ 0.92. -/
theorem C6_principle_dedup_witness :
    (∃ e ∈ cfgW6.pIndex, mkRat 92 100 ≤ cfgW6.sim (normalizeText (.str "p")) e.2) ∧
    (∃ pid st', process_principle cfgW6 [] "s" stW6 (.str "p") = .ok st' ∧
      (∃ e ∈ cfgW6.pIndex, pid = e.1 ∧
         mkRat 92 100 ≤ cfgW6.sim (normalizeText (.str "p")) e.2) ∧
      st'.principleIds = stW6.principleIds ++ [pid] ∧
      st'.p1 = stW6.p1 ∧ st'.p = stW6.p ∧
      typedIds st'.graph "principle" = typedIds stW6.graph "principle" ∧
      st'.graph = add_edge_if_missing stW6.graph "s" pid "supports") :=
  ⟨by decide, C6_principle_dedup cfgW6 [] "s" stW6 (.str "p") (by decide)⟩

/-- C2.  If (with `force_llm = False`) the matcher returns a scenario match,
`process_query` performs zero auto-linker/LLM invocations; and whenever the
graph-match pipeline steps (`expand_context`, `simplify_answer`) succeed, the
result records `method_used = "graph_match"`, `success = True` and the
simplified answer. -/
theorem C2_graph_match_no_llm (env : PQEnv) (query : String) (t : ℚ) (m : String × ℚ)
    (hm : find_matching_scenario env.blank env.sims t = some m) :
    (process_query env query t false).llmCalls = 0 ∧
    ∀ ctx ans, expand_context env.graph m.1 = .ok ctx → env.simplify ctx = .ok ans →
      (process_query env query t false).method_used = "graph_match" ∧
      (process_query env query t false).success = true ∧
      (process_query env query t false).answer = ans := by
  obtain ⟨sid, score⟩ := m
  have h1 : pqCore env query t false = (pqGraphPath env sid, 0) := by
    unfold pqCore
    rw [hm]
    rfl
  constructor
  · unfold process_query
    rw [h1]
    cases hg : pqGraphPath env sid with
    | error e => rfl
    | ok out => rfl
  · intro ctx ans hexp hsimp
    have hgp : pqGraphPath env sid = .ok ⟨"graph_match", true, ans⟩ := by
      unfold pqGraphPath
      rw [show expand_context env.graph sid = .ok ctx from hexp]
      show (match env.simplify ctx with
            | .error e => (.error e : Except String PQOut)
            | .ok answer => .ok ⟨"graph_match", true, answer⟩)
          = .ok ⟨"graph_match", true, ans⟩
      rw [hsimp]
    unfold process_query
    rw [h1, hgp]
    exact ⟨rfl, rfl, rfl⟩

/-- Witness for C2: concrete environment with a matched scenario; zero LLM
calls and the graph_match result. -/
theorem C2_graph_match_no_llm_witness :
    find_matching_scenario envW2.blank envW2.sims (mkRat 75 100) = some ("s1", mkRat 8 10) ∧
    expand_context envW2.graph "s1" = .ok ctxW2 ∧
    envW2.simplify ctxW2 = .ok "ANS" ∧
    ((process_query envW2 "q" (mkRat 75 100) false).llmCalls = 0 ∧
     (process_query envW2 "q" (mkRat 75 100) false).method_used = "graph_match" ∧
     (process_query envW2 "q" (mkRat 75 100) false).success = true ∧
     (process_query envW2 "q" (mkRat 75 100) false).answer = "ANS") :=
  ⟨by decide, by decide, rfl,
   (C2_graph_match_no_llm envW2 "q" (mkRat 75 100) ("s1", mkRat 8 10) (by decide)).1,
   (C2_graph_match_no_llm envW2 "q" (mkRat 75 100) ("s1", mkRat 8 10) (by decide)).2
     ctxW2 "ANS" (by decide) rfl⟩

/-- C9.  `process_query` always returns a result dict with `processing_time`
stamped; and whenever its `try` body raises (any `.error` from the pipeline),
the exception is caught: the result has `success = False` and the non-empty
"System error while processing your query: ..." answer. -/
theorem C9_no_exception_escape (env : PQEnv) (query : String) (t : ℚ) (fl : Bool) :
    (process_query env query t fl).processing_time = env.elapsed ∧
    ∀ e, (pqCore env query t fl).1 = .error e →
      (process_query env query t fl).success = false ∧
      (process_query env query t fl).answer =
        "System error while processing your query: " ++ e ∧
      (process_query env query t fl).answer ≠ "" := by
  constructor
  · unfold process_query
    cases hc : pqCore env query t fl with
    | mk r n =>
      cases r with
      | error e => rfl
      | ok out => rfl
  · intro e he
    unfold process_query
    cases hc : pqCore env query t fl with
    | mk r n =>
      rw [hc] at he
      simp only at he
      cases r with
      | ok out => exact absurd he (by simp)
      | error e' =>
        simp only [Except.error.injEq] at he
        subst he
        refine ⟨rfl, rfl, ?_⟩
        intro h0
        have hlen := congrArg String.length h0
        rw [String.length_append] at hlen
        have h1 : (0 : Nat) < ("System error while processing your query: ").length := by
          decide
        simp only [show ("" : String).length = 0 from rfl] at hlen
        omega

/-- Witness for C9: the matcher hits scenario id "sX" which is missing from
the graph; `expand_context` raises, the exception is caught and surfaced. -/
theorem C9_no_exception_escape_witness :
    (pqCore envW9 "q" (mkRat 75 100) false).1 =
      .error "Scenario ID 'sX' not found in graph" ∧
    (process_query envW9 "q" (mkRat 75 100) false).processing_time = envW9.elapsed ∧
    ((process_query envW9 "q" (mkRat 75 100) false).success = false ∧
     (process_query envW9 "q" (mkRat 75 100) false).answer =
       "System error while processing your query: " ++ "Scenario ID 'sX' not found in graph" ∧
     (process_query envW9 "q" (mkRat 75 100) false).answer ≠ "") :=
  ⟨by decide,
   (C9_no_exception_escape envW9 "q" (mkRat 75 100) false).1,
   (C9_no_exception_escape envW9 "q" (mkRat 75 100) false).2
     "Scenario ID 'sX' not found in graph" (by decide)⟩

/-! ## Helper lemmas: graph operations -/

theorem ensureNode_of_mem {g : Graph} {i : String} (h : i ∈ nodeIds g) :
    ensureNode g i = g := by
  unfold ensureNode; rw [if_pos h]

theorem edges_ensureNode (g : Graph) (i : String) : (ensureNode g i).edges = g.edges := by
  unfold ensureNode; split <;> rfl

theorem add_edge_if_missing_of_hasEdge {g : Graph} {a b : String} (t : String)
    (h : hasEdge g a b) : add_edge_if_missing g a b t = g := by
  unfold add_edge_if_missing; rw [if_pos h]

theorem add_edge_if_missing_spec {g : Graph} {a b t : String} (h : ¬ hasEdge g a b) :
    (add_edge_if_missing g a b t).nodes = (ensureNode (ensureNode g a) b).nodes ∧
    (add_edge_if_missing g a b t).edges = g.edges ++ [(a, b, t)] := by
  unfold add_edge_if_missing
  rw [if_neg h]
  refine ⟨rfl, ?_⟩
  show (ensureNode (ensureNode g a) b).edges ++ [(a, b, t)] = g.edges ++ [(a, b, t)]
  rw [edges_ensureNode, edges_ensureNode]

theorem nodes_add_edge_if_missing_of_mem {g : Graph} {a b : String} (t : String)
    (ha : a ∈ nodeIds g) (hb : b ∈ nodeIds g) :
    (add_edge_if_missing g a b t).nodes = g.nodes := by
  by_cases h : hasEdge g a b
  · rw [add_edge_if_missing_of_hasEdge t h]
  · rw [(add_edge_if_missing_spec h).1, ensureNode_of_mem ha, ensureNode_of_mem hb]

theorem edges_add_edge_if_missing_cases (g : Graph) (a b t : String) :
    (add_edge_if_missing g a b t).edges = g.edges ∨
    ((add_edge_if_missing g a b t).edges = g.edges ++ [(a, b, t)] ∧ ¬ hasEdge g a b) := by
  by_cases h : hasEdge g a b
  · left; rw [add_edge_if_missing_of_hasEdge t h]
  · right; exact ⟨(add_edge_if_missing_spec h).2, h⟩

theorem hasEdgeOfType_of_edges_eq {g g' : Graph} (h : g.edges = g'.edges) (u v t : String) :
    hasEdgeOfType g u v t ↔ hasEdgeOfType g' u v t := by
  unfold hasEdgeOfType; rw [h]

theorem hasEdgeOfType_edges_append (g : Graph) (e₀ : String × String × String) (u v t : String) :
    hasEdgeOfType { g with edges := g.edges ++ [e₀] } u v t ↔
      (hasEdgeOfType g u v t ∨
       (e₀.2.2 = t ∧ ((e₀.1 = u ∧ e₀.2.1 = v) ∨ (e₀.1 = v ∧ e₀.2.1 = u)))) := by
  unfold hasEdgeOfType
  constructor
  · rintro ⟨e, he, hprop⟩
    rcases List.mem_append.mp he with he' | he'
    · exact .inl ⟨e, he', hprop⟩
    · rw [List.mem_singleton] at he'
      subst he'
      exact .inr hprop
  · rintro (⟨e, he, hprop⟩ | hprop)
    · exact ⟨e, List.mem_append.mpr (.inl he), hprop⟩
    · exact ⟨e₀, List.mem_append.mpr (.inr (List.mem_singleton.mpr rfl)), hprop⟩

theorem find?_append_single_false {α : Type} {l : List α} {x : α} {p : α → Bool}
    (h : p x = false) : (l ++ [x]).find? p = l.find? p := by
  induction l with
  | nil => simp [List.find?, h]
  | cons y ys ih =>
    by_cases hy : p y
    · simp [List.find?, hy]
    · simp only [List.cons_append, List.find?]
      rw [Bool.not_eq_true] at hy
      rw [hy]
      exact ih

/-! ## Helper lemmas: article resolution reads only the node list -/

theorem findArticleNumberMatch_nodes_eq {g g' : Graph} (h : g.nodes = g'.nodes) (n : String) :
    findArticleNumberMatch g n = findArticleNumberMatch g' n := by
  unfold findArticleNumberMatch; rw [h]

theorem findTitleMatch_nodes_eq {g g' : Graph} (h : g.nodes = g'.nodes) (s : String) :
    findTitleMatch g s = findTitleMatch g' s := by
  unfold findTitleMatch; rw [h]

theorem find_article_nodes_eq {g g' : Graph} (h : g.nodes = g'.nodes) (s : String) :
    find_article_by_number_or_title g s = find_article_by_number_or_title g' s := by
  unfold find_article_by_number_or_title
  cases extractArticleNumber s with
  | none => exact findTitleMatch_nodes_eq h s
  | some n =>
    show (match findArticleNumberMatch g n with
          | some nid => some nid
          | none => findTitleMatch g s)
        = (match findArticleNumberMatch g' n with
           | some nid => some nid
           | none => findTitleMatch g' s)
    rw [findArticleNumberMatch_nodes_eq h n]
    cases findArticleNumberMatch g' n with
    | none => exact findTitleMatch_nodes_eq h s
    | some m => rfl

/-- Appending a non-article node does not change article resolution. -/
theorem find_article_append_nonArticle {g : Graph} {i : String} {d : NodeData}
    {E : List (String × String × String)} (hd : d.type ≠ some "article") (s : String) :
    find_article_by_number_or_title { nodes := g.nodes ++ [(i, d)], edges := E } s
      = find_article_by_number_or_title g s := by
  have h1 : ∀ n, findArticleNumberMatch { nodes := g.nodes ++ [(i, d)], edges := E } n
      = findArticleNumberMatch g n := by
    intro n
    unfold findArticleNumberMatch
    show ((g.nodes ++ [(i, d)]).find? _).map _ = (g.nodes.find? _).map _
    rw [find?_append_single_false (by simp [hd])]
  have h2 : findTitleMatch { nodes := g.nodes ++ [(i, d)], edges := E } s
      = findTitleMatch g s := by
    unfold findTitleMatch
    show ((g.nodes ++ [(i, d)]).find? _).map _ = (g.nodes.find? _).map _
    rw [find?_append_single_false (by simp [hd])]
  unfold find_article_by_number_or_title
  cases extractArticleNumber s with
  | none => exact h2
  | some n =>
    show (match findArticleNumberMatch { nodes := g.nodes ++ [(i, d)], edges := E } n with
          | some nid => some nid
          | none => findTitleMatch { nodes := g.nodes ++ [(i, d)], edges := E } s)
        = (match findArticleNumberMatch g n with
           | some nid => some nid
           | none => findTitleMatch g s)
    rw [h1 n]
    cases findArticleNumberMatch g n with
    | none => exact h2
    | some m => rfl

theorem hasEdgeOfType_edges_eq_append {g' g : Graph} {e₀ : String × String × String}
    (h : g'.edges = g.edges ++ [e₀]) (u v t : String) :
    hasEdgeOfType g' u v t ↔
      (hasEdgeOfType g u v t ∨
       (e₀.2.2 = t ∧ ((e₀.1 = u ∧ e₀.2.1 = v) ∨ (e₀.1 = v ∧ e₀.2.1 = u)))) := by
  unfold hasEdgeOfType
  rw [h]
  constructor
  · rintro ⟨e, he, hprop⟩
    rcases List.mem_append.mp he with he' | he'
    · exact .inl ⟨e, he', hprop⟩
    · rw [List.mem_singleton] at he'
      subst he'
      exact .inr hprop
  · rintro (⟨e, he, hprop⟩ | hprop)
    · exact ⟨e, List.mem_append.mpr (.inl he), hprop⟩
    · exact ⟨e₀, List.mem_append.mpr (.inr (List.mem_singleton.mpr rfl)), hprop⟩

theorem resolveLinkEdges_cons (pid : String) (g : Graph) (n : String) (rest : List String) :
    resolveLinkEdges pid g (n :: rest) =
      resolveLinkEdges pid
        (match find_article_by_number_or_title g ("Article " ++ n) with
         | some articleid => add_edge_if_missing g pid articleid "explains"
         | none => g) rest := rfl

/-- Characterization of the explains-edge fold.  `g1` is the graph right
after the new principle node was inserted; the fold preserves the node list,
keeps every edge touching `pid` an outgoing `explains` edge, and afterwards
`pid` has an `explains` edge to exactly `S` (what it had before) plus the
resolutions of the processed numbers. -/
theorem resolveLinkEdges_spec (g1 : Graph) (pid : String)
    (hpmem : pid ∈ nodeIds g1)
    (hpart : ∀ d, (pid, d) ∈ g1.nodes → d.type ≠ some "article") :
    ∀ (ns : List String) (gc : Graph) (S : List String),
      gc.nodes = g1.nodes →
      (∀ e ∈ gc.edges, (e.1 = pid ∨ e.2.1 = pid) → e.1 = pid ∧ e.2.2 = "explains") →
      (∀ aid, hasEdgeOfType gc pid aid "explains" ↔ aid ∈ S) →
      (resolveLinkEdges pid gc ns).nodes = g1.nodes ∧
      (∀ e ∈ (resolveLinkEdges pid gc ns).edges,
         (e.1 = pid ∨ e.2.1 = pid) → e.1 = pid ∧ e.2.2 = "explains") ∧
      (∀ aid, hasEdgeOfType (resolveLinkEdges pid gc ns) pid aid "explains" ↔
         aid ∈ S ++ ns.filterMap
           (fun n => find_article_by_number_or_title g1 ("Article " ++ n))) := by
  intro ns
  induction ns with
  | nil =>
    intro gc S h1 h2 h3
    refine ⟨h1, h2, ?_⟩
    intro aid
    simpa using h3 aid
  | cons n rest ih =>
    intro gc S h1 h2 h3
    cases hf : find_article_by_number_or_title gc ("Article " ++ n) with
    | none =>
      have hf1 : find_article_by_number_or_title g1 ("Article " ++ n) = none := by
        rw [← find_article_nodes_eq h1]; exact hf
      have hstep : resolveLinkEdges pid gc (n :: rest) = resolveLinkEdges pid gc rest := by
        rw [resolveLinkEdges_cons, hf]
      rw [hstep]
      have hres := ih gc S h1 h2 h3
      refine ⟨hres.1, hres.2.1, ?_⟩
      intro aid
      rw [hres.2.2 aid]
      simp [List.filterMap_cons, hf1]
    | some aid₀ =>
      have hf1 : find_article_by_number_or_title g1 ("Article " ++ n) = some aid₀ := by
        rw [← find_article_nodes_eq h1]; exact hf
      have haidmem : ∃ d, (aid₀, d) ∈ g1.nodes ∧ d.type = some "article" := by
        have hm := find_article_mem hf
        rw [h1] at hm
        exact hm
      have haidne : aid₀ ≠ pid := by
        obtain ⟨d, hdmem, hdty⟩ := haidmem
        intro hcon
        subst hcon
        exact hpart d hdmem hdty
      have hstep : resolveLinkEdges pid gc (n :: rest) =
          resolveLinkEdges pid (add_edge_if_missing gc pid aid₀ "explains") rest := by
        rw [resolveLinkEdges_cons, hf]
      rw [hstep]
      have hpmem' : pid ∈ nodeIds gc := by
        unfold nodeIds at hpmem ⊢
        rw [h1]
        exact hpmem
      have haid_ids : aid₀ ∈ nodeIds gc := by
        obtain ⟨d, hdmem, _⟩ := haidmem
        unfold nodeIds
        rw [h1]
        exact List.mem_map.mpr ⟨(aid₀, d), hdmem, rfl⟩
      have h1' : (add_edge_if_missing gc pid aid₀ "explains").nodes = g1.nodes := by
        rw [nodes_add_edge_if_missing_of_mem _ hpmem' haid_ids, h1]
      by_cases hHE : hasEdge gc pid aid₀
      · -- edge already present; by the edge invariant it is an explains edge from pid
        have haidS : aid₀ ∈ S := by
          obtain ⟨e, he, hm⟩ := hHE
          have htouch : e.1 = pid ∨ e.2.1 = pid := by
            rcases hm with ⟨h1e, _⟩ | ⟨_, h2e⟩
            · exact .inl h1e
            · exact .inr h2e
          have he2 := h2 e he htouch
          have hx : e.2.1 = aid₀ := by
            rcases hm with ⟨_, h2e⟩ | ⟨h1e, _⟩
            · exact h2e
            · exact absurd (h1e ▸ he2.1) haidne
          exact (h3 aid₀).mp ⟨e, he, he2.2, .inl ⟨he2.1, hx⟩⟩
        have heq : add_edge_if_missing gc pid aid₀ "explains" = gc :=
          add_edge_if_missing_of_hasEdge _ hHE
        rw [heq]
        have h3' : ∀ x, hasEdgeOfType gc pid x "explains" ↔ x ∈ S ++ [aid₀] := by
          intro x
          rw [h3 x]
          simp only [List.mem_append, List.mem_singleton]
          constructor
          · exact .inl
          · rintro (hx | rfl)
            · exact hx
            · exact haidS
        have hres := ih gc (S ++ [aid₀]) h1 h2 h3'
        refine ⟨hres.1, hres.2.1, ?_⟩
        intro x
        rw [hres.2.2 x]
        simp [List.filterMap_cons, hf1, List.append_assoc]
      · have hE := (add_edge_if_missing_spec (t := "explains") hHE).2
        have h2' : ∀ e ∈ (add_edge_if_missing gc pid aid₀ "explains").edges,
            (e.1 = pid ∨ e.2.1 = pid) → e.1 = pid ∧ e.2.2 = "explains" := by
          intro e he ht
          rw [hE] at he
          rcases List.mem_append.mp he with he' | he'
          · exact h2 e he' ht
          · rw [List.mem_singleton] at he'
            subst he'
            exact ⟨rfl, rfl⟩
        have h3' : ∀ x, hasEdgeOfType (add_edge_if_missing gc pid aid₀ "explains")
            pid x "explains" ↔ x ∈ S ++ [aid₀] := by
          intro x
          rw [hasEdgeOfType_edges_eq_append hE]
          rw [h3 x]
          simp only [List.mem_append, List.mem_singleton]
          constructor
          · rintro (hx | ⟨_, ⟨_, hx⟩ | ⟨hx, hcon⟩⟩)
            · exact .inl hx
            · exact .inr hx.symm
            · exact absurd hcon haidne
          · rintro (hx | rfl)
            · exact .inl hx
            · exact .inr (by simp)
        have hres := ih (add_edge_if_missing gc pid aid₀ "explains") (S ++ [aid₀]) h1' h2' h3'
        refine ⟨hres.1, hres.2.1, ?_⟩
        intro x
        rw [hres.2.2 x]
        simp [List.filterMap_cons, hf1, List.append_assoc]

/-- C4 (amended).  For a newly created (non-deduplicated) principle, the
`explains` edges added for it go exactly to the existing article nodes
resolved — by `_find_article_by_number_or_title`, number/title match only, no
semantic fallback — from the numbers extracted by the `\b\d+(?:\(\w+\))*`
pattern from its positional `links` entry.  As the counterexample shows, that
extraction takes *every* number in the entry, including the leading principle
ordinal `N` of `"Principle N -> Article X,Y"`, not only the article numbers
after the arrow; unresolved numbers add no edge. -/
theorem C4_explains_links_amended (cfg : LinkerCfg) (links : List String)
    (scenario_id : String) (st : GenState) (item : RawItem) (pid : String)
    (hpid : pid = cfg.genId (normalizeText item) "principle")
    (hlow : ∀ e ∈ cfg.pIndex, cfg.sim (normalizeText item) e.2 < mkRat 92 100)
    (hne : cfg.pIndex ≠ [])
    (hfresh : pid ∉ nodeIds st.graph)
    (hpe : ∀ e ∈ st.graph.edges, e.1 ≠ pid ∧ e.2.1 ≠ pid) :
    ∃ st', process_principle cfg links scenario_id st item = .ok st' ∧
      st'.p1 = st.p1 ++ [pid] ∧
      st'.p = st.p + 1 ∧
      st'.principleIds = st.principleIds ++ [pid] ∧
      (∀ aid, hasEdgeOfType st'.graph pid aid "explains" ↔
        aid ∈ (extractNumbers (links.getD st.p "")).filterMap
                (fun n => find_article_by_number_or_title st.graph ("Article " ++ n))) := by
  subst hpid
  set pid := cfg.genId (normalizeText item) "principle" with hpiddef
  set pd := nodeDataFor (normalizeText item) "principle" with hpddef
  have hpdty : pd.type = some "principle" := rfl
  have hss : semantic_search cfg.sim cfg.pIndex (normalizeText item) (mkRat 92 100)
      = .ok none := semantic_search_none_of_lt hne hlow
  set g1 := setNode st.graph pid pd with hg1def
  have hg1 : g1 = { nodes := st.graph.nodes ++ [(pid, pd)], edges := st.graph.edges } := by
    rw [hg1def]
    unfold setNode
    rw [if_neg hfresh]
  have hg1nodes : g1.nodes = st.graph.nodes ++ [(pid, pd)] := by rw [hg1]
  have hg1edges : g1.edges = st.graph.edges := by rw [hg1]
  have hpmem : pid ∈ nodeIds g1 := by
    unfold nodeIds
    rw [hg1nodes]
    exact List.mem_map.mpr ⟨(pid, pd), List.mem_append.mpr (.inr (by simp)), rfl⟩
  have hpart : ∀ d, (pid, d) ∈ g1.nodes → d.type ≠ some "article" := by
    intro d hd
    rw [hg1nodes] at hd
    rcases List.mem_append.mp hd with hd' | hd'
    · exact absurd (List.mem_map.mpr ⟨(pid, d), hd', rfl⟩) hfresh
    · rw [List.mem_singleton] at hd'
      cases hd'
      rw [hpdty]
      simp
  have h2init : ∀ e ∈ g1.edges, (e.1 = pid ∨ e.2.1 = pid) → e.1 = pid ∧ e.2.2 = "explains" := by
    intro e he ht
    rw [hg1edges] at he
    rcases ht with ht | ht
    · exact absurd ht (hpe e he).1
    · exact absurd ht (hpe e he).2
  have h3init : ∀ aid, hasEdgeOfType g1 pid aid "explains" ↔ aid ∈ ([] : List String) := by
    intro aid
    simp only [List.not_mem_nil, iff_false]
    rintro ⟨e, he, _, ⟨h1e, _⟩ | ⟨_, h2e⟩⟩
    · rw [hg1edges] at he
      exact (hpe e he).1 h1e
    · rw [hg1edges] at he
      exact (hpe e he).2 h2e
  have hspec := resolveLinkEdges_spec g1 pid hpmem hpart
    (extractNumbers (links.getD st.p "")) g1 [] rfl h2init h3init
  set g2 := resolveLinkEdges pid g1 (extractNumbers (links.getD st.p "")) with hg2def
  have hfind : ∀ n : String, find_article_by_number_or_title g1 ("Article " ++ n)
      = find_article_by_number_or_title st.graph ("Article " ++ n) := by
    intro n
    rw [hg1]
    refine find_article_append_nonArticle ?_ _
    rw [hpdty]
    simp
  refine ⟨{ st with
            graph := add_edge_if_missing g2 scenario_id pid "supports"
            p := st.p + 1
            p1 := st.p1 ++ [pid]
            principleIds := st.principleIds ++ [pid] }, ?_, rfl, rfl, rfl, ?_⟩
  · unfold process_principle
    simp only [hss]
    rfl
  · intro aid
    have hmain : hasEdgeOfType g2 pid aid "explains" ↔
        aid ∈ (extractNumbers (links.getD st.p "")).filterMap
          (fun n => find_article_by_number_or_title st.graph ("Article " ++ n)) := by
      rw [hspec.2.2 aid]
      rw [List.nil_append]
      rw [List.filterMap_congr (fun n _ => hfind n)]
    rcases edges_add_edge_if_missing_cases g2 scenario_id pid "supports" with hE | ⟨hE, _⟩
    · rw [hasEdgeOfType_of_edges_eq hE]
      exact hmain
    · rw [hasEdgeOfType_edges_eq_append hE]
      rw [hmain]
      constructor
      · rintro (hx | ⟨hcon, _⟩)
        · exact hx
        · exact absurd hcon (by simp)
      · exact .inl

/-! ## Helper lemmas: node-id lists, membership, and NoDup preservation -/

theorem edges_setNode (g : Graph) (i : String) (d : NodeData) :
    (setNode g i d).edges = g.edges := by
  unfold setNode; split <;> rfl

theorem nodeIds_setNode_of_mem {g : Graph} {i : String} (d : NodeData) (h : i ∈ nodeIds g) :
    nodeIds (setNode g i d) = nodeIds g := by
  unfold setNode
  rw [if_pos h]
  unfold nodeIds
  rw [List.map_map]
  apply List.map_congr_left
  intro p _
  by_cases hp : p.1 = i <;> simp [hp]

theorem nodeIds_setNode_of_not_mem {g : Graph} {i : String} (d : NodeData)
    (h : i ∉ nodeIds g) : nodeIds (setNode g i d) = nodeIds g ++ [i] := by
  unfold setNode
  rw [if_neg h]
  unfold nodeIds
  simp

theorem mem_nodeIds_setNode (g : Graph) (i : String) (d : NodeData) :
    i ∈ nodeIds (setNode g i d) := by
  by_cases h : i ∈ nodeIds g
  · rw [nodeIds_setNode_of_mem d h]; exact h
  · rw [nodeIds_setNode_of_not_mem d h]; simp

theorem nodup_nodeIds_setNode {g : Graph} {i : String} (d : NodeData)
    (h : (nodeIds g).Nodup) : (nodeIds (setNode g i d)).Nodup := by
  by_cases hm : i ∈ nodeIds g
  · rw [nodeIds_setNode_of_mem d hm]; exact h
  · rw [nodeIds_setNode_of_not_mem d hm]
    simpa [List.nodup_append] using ⟨h, hm⟩

theorem nodeIds_ensureNode_of_mem {g : Graph} {i : String} (h : i ∈ nodeIds g) :
    nodeIds (ensureNode g i) = nodeIds g := by
  rw [ensureNode_of_mem h]

theorem nodeIds_ensureNode_of_not_mem {g : Graph} {i : String} (h : i ∉ nodeIds g) :
    nodeIds (ensureNode g i) = nodeIds g ++ [i] := by
  unfold ensureNode
  rw [if_neg h]
  unfold nodeIds
  simp

theorem nodup_nodeIds_ensureNode {g : Graph} (i : String)
    (h : (nodeIds g).Nodup) : (nodeIds (ensureNode g i)).Nodup := by
  by_cases hm : i ∈ nodeIds g
  · rw [nodeIds_ensureNode_of_mem hm]; exact h
  · rw [nodeIds_ensureNode_of_not_mem hm]
    simpa [List.nodup_append] using ⟨h, hm⟩

theorem nodup_nodeIds_add_edge_if_missing {g : Graph} (a b t : String)
    (h : (nodeIds g).Nodup) : (nodeIds (add_edge_if_missing g a b t)).Nodup := by
  by_cases he : hasEdge g a b
  · rw [add_edge_if_missing_of_hasEdge t he]; exact h
  · have hn := (add_edge_if_missing_spec (t := t) he).1
    show ((add_edge_if_missing g a b t).nodes.map (·.1)).Nodup
    rw [hn]
    exact nodup_nodeIds_ensureNode b (nodup_nodeIds_ensureNode a h)

theorem mem_setNode_of_ne {g : Graph} {i s : String} {nd d : NodeData} (hne : s ≠ i) :
    (s, d) ∈ (setNode g i nd).nodes ↔ (s, d) ∈ g.nodes := by
  unfold setNode
  by_cases hm : i ∈ nodeIds g
  · rw [if_pos hm]
    show (s, d) ∈ g.nodes.map _ ↔ _
    rw [List.mem_map]
    constructor
    · rintro ⟨p, hp, hfp⟩
      by_cases hpi : p.1 = i
      · rw [if_pos hpi] at hfp
        exact absurd (congrArg Prod.fst hfp).symm (by simpa [hpi] using hne)
      · rw [if_neg hpi] at hfp
        rw [hfp] at hp
        exact hp
    · intro hmem
      refine ⟨(s, d), hmem, ?_⟩
      rw [if_neg (by simpa using hne)]
  · rw [if_neg hm]
    show (s, d) ∈ g.nodes ++ [(i, nd)] ↔ _
    rw [List.mem_append]
    constructor
    · rintro (hmem | hmem)
      · exact hmem
      · rw [List.mem_singleton] at hmem
        exact absurd (congrArg Prod.fst hmem) hne
    · exact .inl

theorem mem_ensureNode_of_ne {g : Graph} {i s : String} {d : NodeData} (hne : s ≠ i) :
    (s, d) ∈ (ensureNode g i).nodes ↔ (s, d) ∈ g.nodes := by
  unfold ensureNode
  by_cases hm : i ∈ nodeIds g
  · rw [if_pos hm]
  · rw [if_neg hm]
    show (s, d) ∈ g.nodes ++ [(i, ({} : NodeData))] ↔ _
    rw [List.mem_append]
    constructor
    · rintro (hmem | hmem)
      · exact hmem
      · rw [List.mem_singleton] at hmem
        exact absurd (congrArg Prod.fst hmem) hne
    · exact .inl

theorem mem_add_edge_if_missing_of_ne {g : Graph} {a b s : String} {t : String} {d : NodeData}
    (ha : s ≠ a) (hb : s ≠ b) :
    (s, d) ∈ (add_edge_if_missing g a b t).nodes ↔ (s, d) ∈ g.nodes := by
  by_cases he : hasEdge g a b
  · rw [add_edge_if_missing_of_hasEdge t he]
  · rw [show ((s, d) ∈ (add_edge_if_missing g a b t).nodes)
        = ((s, d) ∈ (ensureNode (ensureNode g a) b).nodes) from
      congrArg _ (add_edge_if_missing_spec (t := t) he).1]
    rw [mem_ensureNode_of_ne hb, mem_ensureNode_of_ne ha]

/-- All the explains-edge fold does when the principle id is a node: edges
extend by outgoing `explains` edges of `pid` to article-typed nodes, and the
node list is untouched. -/
theorem resolveLinkEdges_extend (pid : String) :
    ∀ (ns : List String) (g : Graph), pid ∈ nodeIds g →
      (resolveLinkEdges pid g ns).nodes = g.nodes ∧
      ∃ tail, (resolveLinkEdges pid g ns).edges = g.edges ++ tail ∧
        ∀ e ∈ tail, e.1 = pid ∧ e.2.2 = "explains" ∧
          ∃ da, (e.2.1, da) ∈ g.nodes ∧ da.type = some "article" := by
  intro ns
  induction ns with
  | nil =>
    intro g hp
    refine ⟨rfl, [], ?_, by simp⟩
    show (resolveLinkEdges pid g []).edges = g.edges ++ []
    rw [List.append_nil]
    rfl
  | cons n rest ih =>
    intro g hp
    cases hf : find_article_by_number_or_title g ("Article " ++ n) with
    | none =>
      have hstep : resolveLinkEdges pid g (n :: rest) = resolveLinkEdges pid g rest := by
        rw [resolveLinkEdges_cons, hf]
      rw [hstep]
      exact ih g hp
    | some aid =>
      obtain ⟨da, hdamem, hdaty⟩ := find_article_mem hf
      have haid : aid ∈ nodeIds g := List.mem_map.mpr ⟨(aid, da), hdamem, rfl⟩
      have hstep : resolveLinkEdges pid g (n :: rest) =
          resolveLinkEdges pid (add_edge_if_missing g pid aid "explains") rest := by
        rw [resolveLinkEdges_cons, hf]
      rw [hstep]
      have hnodes : (add_edge_if_missing g pid aid "explains").nodes = g.nodes :=
        nodes_add_edge_if_missing_of_mem _ hp haid
      have hp' : pid ∈ nodeIds (add_edge_if_missing g pid aid "explains") := by
        show pid ∈ (add_edge_if_missing g pid aid "explains").nodes.map (·.1)
        rw [hnodes]
        exact hp
      obtain ⟨hn, tail, ht, htp⟩ := ih (add_edge_if_missing g pid aid "explains") hp'
      refine ⟨by rw [hn, hnodes], ?_⟩
      rcases edges_add_edge_if_missing_cases g pid aid "explains" with hE | ⟨hE, _⟩
      · exact ⟨tail, by rw [ht, hE], fun e he => by
          obtain ⟨h1, h2, da', hda', hty'⟩ := htp e he
          exact ⟨h1, h2, da', by rwa [hnodes] at hda', hty'⟩⟩
      · refine ⟨(pid, aid, "explains") :: tail, ?_, ?_⟩
        · rw [ht, hE, List.append_assoc]
          rfl
        · intro e he
          rcases List.mem_cons.mp he with rfl | he'
          · exact ⟨rfl, rfl, da, hdamem, hdaty⟩
          · obtain ⟨h1, h2, da', hda', hty'⟩ := htp e he'
            exact ⟨h1, h2, da', by rwa [hnodes] at hda', hty'⟩

theorem hasEdgeOfType_mono {g g' : Graph} {tail : List (String × String × String)}
    (h : g'.edges = g.edges ++ tail) {u v t : String}
    (he : hasEdgeOfType g u v t) : hasEdgeOfType g' u v t := by
  obtain ⟨e, hmem, hprop⟩ := he
  exact ⟨e, by rw [h]; exact List.mem_append.mpr (.inl hmem), hprop⟩

theorem nodup_nodeIds_resolveLinkEdges (pid : String) :
    ∀ (ns : List String) (g : Graph), (nodeIds g).Nodup →
      (nodeIds (resolveLinkEdges pid g ns)).Nodup := by
  intro ns
  induction ns with
  | nil => intro g h; exact h
  | cons n rest ih =>
    intro g h
    cases hf : find_article_by_number_or_title g ("Article " ++ n) with
    | none =>
      have hstep : resolveLinkEdges pid g (n :: rest) = resolveLinkEdges pid g rest := by
        rw [resolveLinkEdges_cons, hf]
      rw [hstep]
      exact ih g h
    | some aid =>
      have hstep : resolveLinkEdges pid g (n :: rest) =
          resolveLinkEdges pid (add_edge_if_missing g pid aid "explains") rest := by
        rw [resolveLinkEdges_cons, hf]
      rw [hstep]
      exact ih _ (nodup_nodeIds_add_edge_if_missing _ _ _ h)

/-! ## Small bridging lemmas for the C3 invariant -/

theorem typedIds_nodes_eq {g g' : Graph} (h : g.nodes = g'.nodes) (t : String) :
    typedIds g t = typedIds g' t := by
  unfold typedIds; rw [h]

theorem mem_nodeIds_setNode_preserve {g : Graph} {x i : String} (d : NodeData)
    (h : x ∈ nodeIds g) : x ∈ nodeIds (setNode g i d) := by
  by_cases hm : i ∈ nodeIds g
  · rw [nodeIds_setNode_of_mem d hm]; exact h
  · rw [nodeIds_setNode_of_not_mem d hm]; exact List.mem_append.mpr (.inl h)

theorem mem_nodeIds_of_mem_typedIds {g : Graph} {x t : String}
    (h : x ∈ typedIds g t) : x ∈ nodeIds g := by
  unfold typedIds at h
  obtain ⟨p, hp, hfp⟩ := List.mem_filterMap.mp h
  by_cases hty : p.2.type = some t
  · rw [if_pos hty] at hfp
    cases hfp
    exact List.mem_map.mpr ⟨p, hp, rfl⟩
  · rw [if_neg hty] at hfp
    cases hfp

theorem mem_add_edge_fst_self {g : Graph} {a b t : String} {d : NodeData}
    (ha : a ∈ nodeIds g) (hne : a ≠ b) :
    (a, d) ∈ (add_edge_if_missing g a b t).nodes ↔ (a, d) ∈ g.nodes := by
  by_cases he : hasEdge g a b
  · rw [add_edge_if_missing_of_hasEdge t he]
  · rw [show ((a, d) ∈ (add_edge_if_missing g a b t).nodes)
        = ((a, d) ∈ (ensureNode (ensureNode g a) b).nodes) from
      congrArg _ (add_edge_if_missing_spec (t := t) he).1]
    rw [mem_ensureNode_of_ne hne, ensureNode_of_mem ha]

theorem hasEdgeOfType_after_add_supports {g : Graph} {sid x : String}
    (hD : ∀ e ∈ g.edges, (e.1 = sid ∨ e.2.1 = sid) → e.2.2 = "supports") :
    hasEdgeOfType (add_edge_if_missing g sid x "supports") sid x "supports" := by
  by_cases he : hasEdge g sid x
  · rw [add_edge_if_missing_of_hasEdge _ he]
    obtain ⟨e, hmem, hm⟩ := he
    have htouch : e.1 = sid ∨ e.2.1 = sid := by
      rcases hm with ⟨h1e, _⟩ | ⟨_, h2e⟩
      · exact .inl h1e
      · exact .inr h2e
    exact ⟨e, hmem, hD e hmem htouch, hm⟩
  · have hE := (add_edge_if_missing_spec (t := "supports") he).2
    exact ⟨(sid, x, "supports"), by rw [hE]; simp, rfl, .inl ⟨rfl, rfl⟩⟩

theorem edges_add_edge_extend (g : Graph) (a b t : String) :
    ∃ tail, (add_edge_if_missing g a b t).edges = g.edges ++ tail := by
  rcases edges_add_edge_if_missing_cases g a b t with hE | ⟨hE, _⟩
  · exact ⟨[], by rw [hE, List.append_nil]⟩
  · exact ⟨[(a, b, t)], hE⟩

/-- One principle-loop iteration preserves the C3 invariant, given that the
scenario id is no principle-index row id and the would-be principle id is
neither the scenario id nor a pre-existing scenario-typed id. -/
theorem C3_step_principle {cfg : LinkerCfg} {links : List String} {g0 : Graph} {sid : String}
    {st st' : GenState} {item : RawItem}
    (h : process_principle cfg links sid st item = .ok st')
    (hsidIdx : sid ∉ cfg.pIndex.map (·.1))
    (hne : cfg.genId (normalizeText item) "principle" ≠ sid)
    (hnsc : cfg.genId (normalizeText item) "principle" ∉ scenarioIds st.graph)
    (hInv : C3Inv g0 sid st) : C3Inv g0 sid st' := by
  obtain ⟨hB, hC, hD, hE⟩ := hInv
  have hsidsc : sid ∈ scenarioIds st.graph := by rw [hB]; simp
  have hsidmem : sid ∈ nodeIds st.graph := mem_nodeIds_of_mem_typedIds hsidsc
  cases hss : semantic_search cfg.sim cfg.pIndex (normalizeText item) (mkRat 92 100) with
  | error e =>
    simp only [process_principle, hss] at h
    exact absurd h (by simp)
  | ok r =>
    cases r with
    | some matched =>
      simp only [process_principle, hss, Except.ok.injEq] at h
      subst h
      obtain ⟨e₀, he₀, heq, _⟩ := semantic_search_mem hss
      have hmne : sid ≠ matched := by
        intro hcon
        exact hsidIdx (by rw [hcon, heq]; exact List.mem_map.mpr ⟨e₀, he₀, rfl⟩)
      refine ⟨?_, ?_, ?_, ?_⟩
      · show typedIds (add_edge_if_missing st.graph sid matched "supports") "scenario" = _
        rw [typedIds_add_edge_if_missing]
        exact hB
      · intro d hd
        rw [mem_add_edge_fst_self hsidmem hmne] at hd
        exact hC d hd
      · intro e he ht
        rcases edges_add_edge_if_missing_cases st.graph sid matched "supports" with hEq | ⟨hEq, _⟩
        · rw [hEq] at he
          exact hD e he ht
        · rw [hEq] at he
          rcases List.mem_append.mp he with he' | he'
          · exact hD e he' ht
          · rw [List.mem_singleton] at he'
            subst he'
            rfl
      · intro q hq
        rcases List.mem_append.mp hq with hq' | hq'
        · obtain ⟨tail, htail⟩ := edges_add_edge_extend st.graph sid matched "supports"
          exact hasEdgeOfType_mono htail (hE q hq')
        · rw [List.mem_singleton] at hq'
          subst hq'
          exact hasEdgeOfType_after_add_supports hD
    | none =>
      simp only [process_principle, hss, add_node, Except.ok.injEq] at h
      subst h
      set pid := cfg.genId (normalizeText item) "principle" with hpiddef
      set pd := nodeDataFor (normalizeText item) "principle" with hpddef
      set g1 := setNode st.graph pid pd with hg1def
      set ns := extractNumbers (links.getD st.p "") with hnsdef
      have hpdty : pd.type = some "principle" := rfl
      have hpmem1 : pid ∈ nodeIds g1 := mem_nodeIds_setNode st.graph pid pd
      have hsid1 : sid ∈ nodeIds g1 := mem_nodeIds_setNode_preserve pd hsidmem
      have hC1 : ∀ d, (sid, d) ∈ g1.nodes → d.type = some "scenario" := by
        intro d hd
        rw [hg1def, mem_setNode_of_ne (Ne.symm hne)] at hd
        exact hC d hd
      obtain ⟨hg2nodes, tail, hg2edges, htailp⟩ := resolveLinkEdges_extend pid ns g1 hpmem1
      set g2 := resolveLinkEdges pid g1 ns with hg2def
      have hg1edges : g1.edges = st.graph.edges := by rw [hg1def]; exact edges_setNode _ _ _
      have hsid2 : sid ∈ nodeIds g2 := by
        unfold nodeIds
        rw [hg2nodes]
        exact hsid1
      have hC2 : ∀ d, (sid, d) ∈ g2.nodes → d.type = some "scenario" := by
        intro d hd
        rw [hg2nodes] at hd
        exact hC1 d hd
      have hD2 : ∀ e ∈ g2.edges, (e.1 = sid ∨ e.2.1 = sid) → e.2.2 = "supports" := by
        intro e he ht
        rw [hg2edges] at he
        rcases List.mem_append.mp he with he' | he'
        · rw [hg1edges] at he'
          exact hD e he' ht
        · obtain ⟨hfst, _, da, hdamem, hdaty⟩ := htailp e he'
          rcases ht with ht | ht
          · exact absurd (hfst ▸ ht) hne
          · rw [ht] at hdamem
            have := hC1 da hdamem
            rw [hdaty] at this
            exact absurd this (by simp)
      have hB2 : scenarioIds g2 = scenarioIds g0 ++ [sid] := by
        have e1 : scenarioIds g2 = scenarioIds g1 := typedIds_nodes_eq hg2nodes "scenario"
        have e2 : scenarioIds g1 = scenarioIds st.graph := by
          rw [hg1def]
          exact typedIds_setNode_of_ne hpdty (by simp) hnsc
        rw [e1, e2]
        exact hB
      refine ⟨?_, ?_, ?_, ?_⟩
      · show typedIds (add_edge_if_missing g2 sid pid "supports") "scenario" = _
        rw [typedIds_add_edge_if_missing]
        exact hB2
      · intro d hd
        rw [mem_add_edge_fst_self hsid2 (Ne.symm hne)] at hd
        exact hC2 d hd
      · intro e he ht
        rcases edges_add_edge_if_missing_cases g2 sid pid "supports" with hEq | ⟨hEq, _⟩
        · rw [hEq] at he
          exact hD2 e he ht
        · rw [hEq] at he
          rcases List.mem_append.mp he with he' | he'
          · exact hD2 e he' ht
          · rw [List.mem_singleton] at he'
            subst he'
            rfl
      · intro q hq
        rcases List.mem_append.mp hq with hq' | hq'
        · obtain ⟨tail2, htail2⟩ := edges_add_edge_extend g2 sid pid "supports"
          have hchain : (add_edge_if_missing g2 sid pid "supports").edges
              = st.graph.edges ++ (tail ++ tail2) := by
            rw [htail2, hg2edges, hg1edges, List.append_assoc]
          exact hasEdgeOfType_mono hchain (hE q hq')
        · rw [List.mem_singleton] at hq'
          subst hq'
          exact hasEdgeOfType_after_add_supports hD2

/-- One article-loop iteration preserves the C3 invariant. -/
theorem C3_step_article {cfg : LinkerCfg} {g0 : Graph} {sid : String}
    {st st' : GenState} {item : RawItem}
    (h : process_article cfg st item = .ok st')
    (hne : cfg.genId (normalizeText item) "article" ≠ sid)
    (hnsc : cfg.genId (normalizeText item) "article" ∉ scenarioIds st.graph)
    (hInv : C3Inv g0 sid st) : C3Inv g0 sid st' := by
  obtain ⟨hB, hC, hD, hE⟩ := hInv
  cases hra : resolve_article cfg st.graph (normalizeText item) with
  | error e =>
    simp only [process_article, hra] at h
    exact absurd h (by simp)
  | ok r =>
    obtain ⟨ro, flag⟩ := r
    cases ro with
    | some aid =>
      simp only [process_article, hra, Except.ok.injEq] at h
      subst h
      exact ⟨hB, hC, hD, hE⟩
    | none =>
      simp only [process_article, hra, add_node, Except.ok.injEq] at h
      subst h
      set aid := cfg.genId (normalizeText item) "article" with haiddef
      set ad := nodeDataFor (normalizeText item) "article" with haddef
      have hadty : ad.type = some "article" := rfl
      refine ⟨?_, ?_, ?_, ?_⟩
      · show typedIds (setNode st.graph aid ad) "scenario" = _
        rw [typedIds_setNode_of_ne hadty (by simp) hnsc]
        exact hB
      · intro dd hd
        rw [mem_setNode_of_ne (Ne.symm hne)] at hd
        exact hC dd hd
      · intro e he ht
        rw [show (setNode st.graph aid ad).edges = st.graph.edges from edges_setNode _ _ _] at he
        exact hD e he ht
      · intro q hq
        exact @hasEdgeOfType_mono st.graph (setNode st.graph aid ad) []
          (by rw [edges_setNode, List.append_nil]) _ _ _ (hE q hq)

theorem nodup_step_principle {cfg : LinkerCfg} {links : List String} {sid : String}
    {st st' : GenState} {item : RawItem}
    (h : process_principle cfg links sid st item = .ok st')
    (hnd : (nodeIds st.graph).Nodup) : (nodeIds st'.graph).Nodup := by
  cases hss : semantic_search cfg.sim cfg.pIndex (normalizeText item) (mkRat 92 100) with
  | error e =>
    simp only [process_principle, hss] at h
    exact absurd h (by simp)
  | ok r =>
    cases r with
    | some matched =>
      simp only [process_principle, hss, Except.ok.injEq] at h
      subst h
      exact nodup_nodeIds_add_edge_if_missing _ _ _ hnd
    | none =>
      simp only [process_principle, hss, add_node, Except.ok.injEq] at h
      subst h
      exact nodup_nodeIds_add_edge_if_missing _ _ _
        (nodup_nodeIds_resolveLinkEdges _ _ _ (nodup_nodeIds_setNode _ hnd))

theorem nodup_step_article {cfg : LinkerCfg} {st st' : GenState} {item : RawItem}
    (h : process_article cfg st item = .ok st')
    (hnd : (nodeIds st.graph).Nodup) : (nodeIds st'.graph).Nodup := by
  cases hra : resolve_article cfg st.graph (normalizeText item) with
  | error e =>
    simp only [process_article, hra] at h
    exact absurd h (by simp)
  | ok r =>
    obtain ⟨ro, flag⟩ := r
    cases ro with
    | some aid =>
      simp only [process_article, hra, Except.ok.injEq] at h
      subst h
      exact hnd
    | none =>
      simp only [process_article, hra, add_node, Except.ok.injEq] at h
      subst h
      exact nodup_nodeIds_setNode _ hnd

/-- The whole principle loop preserves the C3 invariant and node-id NoDup. -/
theorem runPrinciples_inv {cfg : LinkerCfg} {links : List String} {g0 : Graph} {sid : String} :
    ∀ (items : List RawItem) (st st' : GenState),
      runPrinciples cfg links sid st items = .ok st' →
      sid ∉ cfg.pIndex.map (·.1) →
      (∀ item ∈ items, cfg.genId (normalizeText item) "principle" ≠ sid ∧
        cfg.genId (normalizeText item) "principle" ∉ scenarioIds g0) →
      C3Inv g0 sid st → (nodeIds st.graph).Nodup →
      C3Inv g0 sid st' ∧ (nodeIds st'.graph).Nodup := by
  intro items
  induction items with
  | nil =>
    intro st st' h _ _ hInv hnd
    simp only [runPrinciples, Except.ok.injEq] at h
    subst h
    exact ⟨hInv, hnd⟩
  | cons item rest ih =>
    intro st st' h hsidIdx hfr hInv hnd
    cases hp : process_principle cfg links sid st item with
    | error e =>
      simp only [runPrinciples, hp] at h
      exact absurd h (by simp)
    | ok st1 =>
      simp only [runPrinciples, hp] at h
      have hitem := hfr item (List.mem_cons_self _ _)
      have hnsc : cfg.genId (normalizeText item) "principle" ∉ scenarioIds st.graph := by
        rw [hInv.1]
        simp only [List.mem_append, List.mem_singleton]
        rintro (hx | hx)
        · exact hitem.2 hx
        · exact hitem.1 hx
      exact ih st1 st' h hsidIdx (fun it hit => hfr it (List.mem_cons_of_mem _ hit))
        (C3_step_principle hp hsidIdx hitem.1 hnsc hInv) (nodup_step_principle hp hnd)

/-- The whole article loop preserves the C3 invariant and node-id NoDup. -/
theorem runArticles_inv {cfg : LinkerCfg} {g0 : Graph} {sid : String} :
    ∀ (items : List RawItem) (st st' : GenState),
      runArticles cfg st items = .ok st' →
      (∀ item ∈ items, cfg.genId (normalizeText item) "article" ≠ sid ∧
        cfg.genId (normalizeText item) "article" ∉ scenarioIds g0) →
      C3Inv g0 sid st → (nodeIds st.graph).Nodup →
      (C3Inv g0 sid st' ∧ (nodeIds st'.graph).Nodup) ∧ st'.principleIds = st.principleIds := by
  intro items
  induction items with
  | nil =>
    intro st st' h _ hInv hnd
    simp only [runArticles, Except.ok.injEq] at h
    subst h
    exact ⟨⟨hInv, hnd⟩, rfl⟩
  | cons item rest ih =>
    intro st st' h hfr hInv hnd
    cases hp : process_article cfg st item with
    | error e =>
      simp only [runArticles, hp] at h
      exact absurd h (by simp)
    | ok st1 =>
      simp only [runArticles, hp] at h
      have hitem := hfr item (List.mem_cons_self _ _)
      have hnsc : cfg.genId (normalizeText item) "article" ∉ scenarioIds st.graph := by
        rw [hInv.1]
        simp only [List.mem_append, List.mem_singleton]
        rintro (hx | hx)
        · exact hitem.2 hx
        · exact hitem.1 hx
      have hrec := ih st1 st' h (fun it hit => hfr it (List.mem_cons_of_mem _ hit))
        (C3_step_article hp hitem.1 hnsc hInv) (nodup_step_article hp hnd)
      refine ⟨hrec.1, ?_⟩
      rw [hrec.2]
      cases hra : resolve_article cfg st.graph (normalizeText item) with
      | error e =>
        simp only [process_article, hra] at hp
        exact absurd hp (by simp)
      | ok r =>
        obtain ⟨ro, flag⟩ := r
        cases ro with
        | some aid =>
          simp only [process_article, hra, Except.ok.injEq] at hp
          subst hp
          rfl
        | none =>
          simp only [process_article, hra, add_node, Except.ok.injEq] at hp
          subst hp
          rfl

/-- Inversion of a successful `generate_and_insert` run on a truthy LLM
payload: the scenario insertion, the two loops, and the shape of the result. -/
theorem generate_and_insert_ok_inv {cfg : LinkerCfg} {d : LLMData} {g : Graph}
    {query : String} {ret : GenReturn}
    (hrun : generate_and_insert cfg (some d) g query = .ok ret) :
    ∃ scTxt st1 st2,
      scTxt = (match d.scenario with
               | some (some e) => e
               | some none => query
               | none => query) ∧
      runPrinciples cfg d.links (cfg.genId scTxt "scenario")
        ⟨setNode g (cfg.genId scTxt "scenario") (nodeDataFor scTxt "scenario"),
         0, [], 0, [], [], []⟩ d.principles = .ok st1 ∧
      runArticles cfg st1 d.articles = .ok st2 ∧
      ret = ⟨.success ⟨cfg.genId scTxt "scenario", st2.principleIds, st2.articleIds,
                       st2.p, st2.p1, st2.a, st2.a1⟩,
             st2.graph, rebuildPrincipleIndex st2.graph, rebuildArticleIndex st2.graph, 1⟩ := by
  simp only [generate_and_insert, add_node] at hrun
  set scTxt := (match d.scenario with
                | some (some e) => e
                | some none => query
                | none => query) with hscdef
  cases hrp : runPrinciples cfg d.links (cfg.genId scTxt "scenario")
      ⟨setNode g (cfg.genId scTxt "scenario") (nodeDataFor scTxt "scenario"),
       0, [], 0, [], [], []⟩ d.principles with
  | error e =>
    rw [hrp] at hrun
    exact absurd hrun (by simp)
  | ok st1 =>
    rw [hrp] at hrun
    cases hra : runArticles cfg st1 d.articles with
    | error e =>
      simp only [hra] at hrun
      exact absurd hrun (by simp)
    | ok st2 =>
      simp only [hra, Except.ok.injEq] at hrun
      exact ⟨scTxt, st1, st2, rfl, hrp, hra, hrun.symm⟩

/-- C3.  On a successful run with a truthy LLM payload, `generate_and_insert`
makes exactly one `_call_llm` invocation; it adds exactly one new scenario
node (never deduplicating — the scenario-typed ids afterwards are exactly the
old ones plus the fresh scenario id); and a `supports` edge joins the new
scenario to *every* principle id recorded in the result, whether that
principle was newly created or deduplicated to an existing node.  Freshness
of the generated ids (content-hash collisions aside) is assumed via the
hypotheses on `genId`. -/
theorem C3_llm_success_insertions (cfg : LinkerCfg) (d : LLMData) (g : Graph)
    (query : String) (ret : GenReturn) (res : GenResult)
    (hrun : generate_and_insert cfg (some d) g query = .ok ret)
    (hres : ret.outcome = .success res)
    (hsid : res.scenario ∉ nodeIds g)
    (hsidIdx : res.scenario ∉ cfg.pIndex.map (·.1))
    (hedges : ∀ e ∈ g.edges, e.1 ≠ res.scenario ∧ e.2.1 ≠ res.scenario)
    (hnd : (nodeIds g).Nodup)
    (hP : ∀ item ∈ d.principles,
      cfg.genId (normalizeText item) "principle" ≠ res.scenario ∧
      cfg.genId (normalizeText item) "principle" ∉ scenarioIds g)
    (hA : ∀ item ∈ d.articles,
      cfg.genId (normalizeText item) "article" ≠ res.scenario ∧
      cfg.genId (normalizeText item) "article" ∉ scenarioIds g) :
    ret.llmCalls = 1 ∧
    scenarioIds ret.graph = scenarioIds g ++ [res.scenario] ∧
    (∀ pid ∈ res.principles, hasEdgeOfType ret.graph res.scenario pid "supports") := by
  obtain ⟨scTxt, st1, st2, hscdef, hrp, hra, hret⟩ := generate_and_insert_ok_inv hrun
  subst hret
  simp only [GenOutcome.success.injEq] at hres
  subst hres
  set sid := cfg.genId scTxt "scenario" with hsiddef
  have hsid' : sid ∉ nodeIds g := hsid
  have hsidIdx' : sid ∉ cfg.pIndex.map (·.1) := hsidIdx
  have hedges' : ∀ e ∈ g.edges, e.1 ≠ sid ∧ e.2.1 ≠ sid := hedges
  have hP' : ∀ item ∈ d.principles,
      cfg.genId (normalizeText item) "principle" ≠ sid ∧
      cfg.genId (normalizeText item) "principle" ∉ scenarioIds g := hP
  have hA' : ∀ item ∈ d.articles,
      cfg.genId (normalizeText item) "article" ≠ sid ∧
      cfg.genId (normalizeText item) "article" ∉ scenarioIds g := hA
  have hnodes0 : (setNode g sid (nodeDataFor scTxt "scenario")).nodes
      = g.nodes ++ [(sid, nodeDataFor scTxt "scenario")] := by
    unfold setNode
    rw [if_neg hsid']
  have hInv0 : C3Inv g sid
      ⟨setNode g sid (nodeDataFor scTxt "scenario"), 0, [], 0, [], [], []⟩ := by
    refine ⟨?_, ?_, ?_, ?_⟩
    · exact typedIds_setNode_fresh rfl hsid'
    · intro dd hd
      have hd' : (sid, dd) ∈ g.nodes ++ [(sid, nodeDataFor scTxt "scenario")] := by
        rw [← hnodes0]
        exact hd
      rcases List.mem_append.mp hd' with hm | hm
      · exact absurd (List.mem_map.mpr ⟨(sid, dd), hm, rfl⟩) hsid'
      · rw [List.mem_singleton] at hm
        have h2 : dd = nodeDataFor scTxt "scenario" := congrArg Prod.snd hm
        subst h2
        rfl
    · intro e he ht
      rw [show (setNode g sid (nodeDataFor scTxt "scenario")).edges = g.edges from
        edges_setNode _ _ _] at he
      rcases ht with ht | ht
      · exact absurd ht (hedges' e he).1
      · exact absurd ht (hedges' e he).2
    · intro q hq
      simp at hq
  have hnd0 : (nodeIds (setNode g sid (nodeDataFor scTxt "scenario"))).Nodup :=
    nodup_nodeIds_setNode _ hnd
  have h1 := runPrinciples_inv d.principles _ st1 hrp hsidIdx' hP' hInv0 hnd0
  have h2 := runArticles_inv d.articles st1 st2 hra hA' h1.1 h1.2
  exact ⟨rfl, h2.1.1.1, h2.1.1.2.2.2⟩

/-- Witness for C3: the concrete run inserts one scenario node, one principle
node, and the `supports` edge; all freshness hypotheses hold for `genIdW`. -/
theorem C3_llm_success_insertions_witness :
    generate_and_insert cfgW3 (some dW3) (⟨[], []⟩ : Graph) "q" = .ok retW3 ∧
    retW3.outcome = .success resW3 ∧
    resW3.scenario ∉ nodeIds (⟨[], []⟩ : Graph) ∧
    resW3.scenario ∉ cfgW3.pIndex.map (·.1) ∧
    (∀ e ∈ (⟨[], []⟩ : Graph).edges, e.1 ≠ resW3.scenario ∧ e.2.1 ≠ resW3.scenario) ∧
    (nodeIds (⟨[], []⟩ : Graph)).Nodup ∧
    (∀ item ∈ dW3.principles,
      cfgW3.genId (normalizeText item) "principle" ≠ resW3.scenario ∧
      cfgW3.genId (normalizeText item) "principle" ∉ scenarioIds (⟨[], []⟩ : Graph)) ∧
    (∀ item ∈ dW3.articles,
      cfgW3.genId (normalizeText item) "article" ≠ resW3.scenario ∧
      cfgW3.genId (normalizeText item) "article" ∉ scenarioIds (⟨[], []⟩ : Graph)) ∧
    (retW3.llmCalls = 1 ∧
     scenarioIds retW3.graph = scenarioIds (⟨[], []⟩ : Graph) ++ [resW3.scenario] ∧
     (∀ pid ∈ resW3.principles, hasEdgeOfType retW3.graph resW3.scenario pid "supports")) :=
  ⟨by decide, by decide, by decide, by decide, by decide, by decide, by decide, by decide,
   C3_llm_success_insertions cfgW3 dW3 ⟨[], []⟩ "q" retW3 resW3
     (by decide) (by decide) (by decide) (by decide) (by decide) (by decide)
     (by decide) (by decide)⟩

/-- Counterexample to C4 as stated.  The links entry
`"Principle 1 -> Article 2"` references only article 2, yet the run also adds
an `explains` edge from the newly created principle to the article numbered
"1": the number-extraction regex `\b\d+(?:\(\w+\))*` picks up the leading
principle ordinal as well.  So an `explains` edge *is* added for a number
("1") that is not one of the referenced article numbers. -/
theorem C4_counterexample :
    (generate_and_insert cfgC4 (some dC4) gC4 "q").isOk = true ∧
    dC4.links = ["Principle 1 -> Article 2"] ∧
    specReferencedArticleNumbers "Principle 1 -> Article 2" = ["2"] ∧
    (genResOf (generate_and_insert cfgC4 (some dC4) gC4 "q")).p1 = ["principle:newp"] ∧
    (getNode gC4 "A1").map (·.number) = some (some "1") ∧
    hasEdgeOfType (genReturnOf (generate_and_insert cfgC4 (some dC4) gC4 "q")).graph
      "principle:newp" "A1" "explains" ∧
    (∀ n ∈ specReferencedArticleNumbers "Principle 1 -> Article 2",
       find_article_by_number_or_title gC4 ("Article " ++ n) ≠ some "A1") := by
  refine ⟨?_, ?_, ?_, ?_, ?_, ?_, ?_⟩ <;> decide

/-- Witness for the amended C4: on the concrete input the newly created
principle gets `explains` edges exactly to the resolutions of the numbers the
regex extracts from its links entry (here: articles "1" and "2"). -/
theorem C4_explains_links_amended_witness :
    ("principle:newp" : String) = cfgC4.genId (normalizeText (.str "newp")) "principle" ∧
    (∀ e ∈ cfgC4.pIndex, cfgC4.sim (normalizeText (.str "newp")) e.2 < mkRat 92 100) ∧
    cfgC4.pIndex ≠ [] ∧
    "principle:newp" ∉ nodeIds stC4.graph ∧
    (∀ e ∈ stC4.graph.edges, e.1 ≠ "principle:newp" ∧ e.2.1 ≠ "principle:newp") ∧
    (∃ st', process_principle cfgC4 dC4.links "scenario:ex" stC4 (.str "newp") = .ok st' ∧
      st'.p1 = stC4.p1 ++ ["principle:newp"] ∧
      st'.p = stC4.p + 1 ∧
      st'.principleIds = stC4.principleIds ++ ["principle:newp"] ∧
      (∀ aid, hasEdgeOfType st'.graph "principle:newp" aid "explains" ↔
        aid ∈ (extractNumbers (dC4.links.getD stC4.p "")).filterMap
                (fun n => find_article_by_number_or_title stC4.graph ("Article " ++ n)))) :=
  ⟨by decide, by decide, by decide, by decide, by decide,
   C4_explains_links_amended cfgC4 dC4.links "scenario:ex" stC4 (.str "newp")
     "principle:newp" (by decide) (by decide) (by decide) (by decide) (by decide)⟩

/-! ## Helper lemmas: index rebuild characterization -/

theorem rebuildPrincipleIndex_eq (g : Graph) :
    rebuildPrincipleIndex g = indexRows "principle" g.nodes := rfl

theorem rebuildArticleIndex_eq (g : Graph) :
    rebuildArticleIndex g = indexRows "article" g.nodes := rfl

theorem indexRows_mem {ty : String} {l : List (String × NodeData)} {e : String × String}
    (h : e ∈ indexRows ty l) :
    ∃ dd, (e.1, dd) ∈ l ∧ dd.type = some ty ∧ dd.text = some e.2 ∧ e.2 ≠ "" := by
  obtain ⟨p, hp, hfp⟩ := List.mem_filterMap.mp h
  by_cases hty : p.2.type = some ty
  · rw [if_pos hty] at hfp
    cases htx : p.2.text with
    | none =>
      simp only [htx] at hfp
      exact Option.noConfusion hfp
    | some t =>
      simp only [htx] at hfp
      by_cases ht : t = ""
      · rw [if_pos ht] at hfp
        exact Option.noConfusion hfp
      · rw [if_neg ht] at hfp
        injection hfp with he
        subst he
        exact ⟨p.2, by simpa using hp, hty, htx, ht⟩
  · rw [if_neg hty] at hfp
    exact Option.noConfusion hfp

theorem indexRows_mem_fst {ty : String} {l : List (String × NodeData)} (nid : String) :
    nid ∈ (indexRows ty l).map (·.1) ↔
      ∃ dd, (nid, dd) ∈ l ∧ dd.type = some ty ∧ ∃ t, dd.text = some t ∧ t ≠ "" := by
  constructor
  · intro h
    obtain ⟨e, he, hfst⟩ := List.mem_map.mp h
    obtain ⟨dd, hdd, hty, htx, hne⟩ := indexRows_mem he
    rw [hfst] at hdd
    exact ⟨dd, hdd, hty, e.2, htx, hne⟩
  · rintro ⟨dd, hdd, hty, t, htx, hne⟩
    refine List.mem_map.mpr ⟨(nid, t), List.mem_filterMap.mpr ⟨(nid, dd), hdd, ?_⟩, rfl⟩
    show (if dd.type = some ty then
        match dd.text with
        | some t => if t = "" then none else some ((nid, dd).1, t)
        | none => none
      else none) = some (nid, t)
    rw [if_pos hty, htx]
    show (if t = "" then none else some ((nid, dd).1, t)) = some (nid, t)
    rw [if_neg hne]

theorem indexRows_map_fst_sublist (ty : String) (l : List (String × NodeData)) :
    ((indexRows ty l).map (·.1)).Sublist (l.map (·.1)) := by
  induction l with
  | nil => simp [indexRows]
  | cons p rest ih =>
    by_cases hty : p.2.type = some ty
    · cases htx : p.2.text with
      | none =>
        have hstep : indexRows ty (p :: rest) = indexRows ty rest := by
          simp [indexRows, List.filterMap_cons, hty, htx]
        rw [hstep, List.map_cons]
        exact ih.cons p.1
      | some t =>
        by_cases ht : t = ""
        · have hstep : indexRows ty (p :: rest) = indexRows ty rest := by
            simp [indexRows, List.filterMap_cons, hty, htx, ht]
          rw [hstep, List.map_cons]
          exact ih.cons p.1
        · have hstep : indexRows ty (p :: rest) = (p.1, t) :: indexRows ty rest := by
            simp [indexRows, List.filterMap_cons, hty, htx, ht]
          rw [hstep, List.map_cons, List.map_cons]
          exact ih.cons₂ p.1
    · have hstep : indexRows ty (p :: rest) = indexRows ty rest := by
        simp [indexRows, List.filterMap_cons, hty]
      rw [hstep, List.map_cons]
      exact ih.cons p.1

theorem indexRows_nodup {ty : String} {l : List (String × NodeData)}
    (hnd : (l.map (·.1)).Nodup) : ((indexRows ty l).map (·.1)).Nodup :=
  (indexRows_map_fst_sublist ty l).nodup hnd

theorem nodup_runPrinciples {cfg : LinkerCfg} {links : List String} {sid : String} :
    ∀ (items : List RawItem) (st st' : GenState),
      runPrinciples cfg links sid st items = .ok st' →
      (nodeIds st.graph).Nodup → (nodeIds st'.graph).Nodup := by
  intro items
  induction items with
  | nil =>
    intro st st' h hnd
    simp only [runPrinciples, Except.ok.injEq] at h
    subst h
    exact hnd
  | cons item rest ih =>
    intro st st' h hnd
    cases hp : process_principle cfg links sid st item with
    | error e =>
      simp only [runPrinciples, hp] at h
      exact absurd h (by simp)
    | ok st1 =>
      simp only [runPrinciples, hp] at h
      exact ih st1 st' h (nodup_step_principle hp hnd)

theorem nodup_runArticles {cfg : LinkerCfg} :
    ∀ (items : List RawItem) (st st' : GenState),
      runArticles cfg st items = .ok st' →
      (nodeIds st.graph).Nodup → (nodeIds st'.graph).Nodup := by
  intro items
  induction items with
  | nil =>
    intro st st' h hnd
    simp only [runArticles, Except.ok.injEq] at h
    subst h
    exact hnd
  | cons item rest ih =>
    intro st st' h hnd
    cases hp : process_article cfg st item with
    | error e =>
      simp only [runArticles, hp] at h
      exact absurd h (by simp)
    | ok st1 =>
      simp only [runArticles, hp] at h
      exact ih st1 st' h (nodup_step_article hp hnd)

/-- Counterexample to C5 as stated.  The run creates a new article node
("article:zzz", stored with `title` only — `_add_node` gives articles no
`text` attribute), `_update_faiss_after_new_nodes` then rebuilds the article
index by collecting `text` attributes, so the rebuilt article index has *no*
entry for the article node created during the run, contradicting "exactly one
entry per article node in the graph (including the article nodes created
during that run)". -/
theorem C5_counterexample :
    generate_and_insert cfgC5 (some dC5) (⟨[], []⟩ : Graph) "q" = .ok retC5 ∧
    retC5.outcome = .success resC5 ∧
    resC5.a1 = ["article:zzz"] ∧
    (getNode retC5.graph "article:zzz").map (·.type) = some (some "article") ∧
    "article:zzz" ∉ retC5.aIndex.map (·.1) ∧
    retC5.aIndex = [] := by
  refine ⟨?_, ?_, ?_, ?_, ?_, ?_⟩ <;> decide

/-- C5 (amended).  After every successful `generate_and_insert` run, both
vector indexes are unconditionally rebuilt from the full current graph: the
principle (resp. article) index holds exactly one row per principle (resp.
article) node of the graph *that carries a non-empty `text` attribute*, with
`ids[i]` paired with `texts[i]` drawn from that same node.  Article nodes
created during the run store their content under `title`, not `text`, and are
therefore excluded — the original claim's "(including the article nodes
created during that run)" fails, see the counterexample. -/
theorem C5_index_rebuild_amended (cfg : LinkerCfg) (d : LLMData) (g : Graph)
    (query : String) (ret : GenReturn) (res : GenResult)
    (hrun : generate_and_insert cfg (some d) g query = .ok ret)
    (hres : ret.outcome = .success res)
    (hnd : (nodeIds g).Nodup) :
    ret.pIndex = rebuildPrincipleIndex ret.graph ∧
    ret.aIndex = rebuildArticleIndex ret.graph ∧
    (ret.pIndex.map (·.1)).Nodup ∧
    (∀ nid, nid ∈ ret.pIndex.map (·.1) ↔
      ∃ dd, (nid, dd) ∈ ret.graph.nodes ∧ dd.type = some "principle" ∧
        ∃ t, dd.text = some t ∧ t ≠ "") ∧
    (∀ e ∈ ret.pIndex, ∃ dd, (e.1, dd) ∈ ret.graph.nodes ∧
      dd.type = some "principle" ∧ dd.text = some e.2) ∧
    (ret.aIndex.map (·.1)).Nodup ∧
    (∀ nid, nid ∈ ret.aIndex.map (·.1) ↔
      ∃ dd, (nid, dd) ∈ ret.graph.nodes ∧ dd.type = some "article" ∧
        ∃ t, dd.text = some t ∧ t ≠ "") ∧
    (∀ e ∈ ret.aIndex, ∃ dd, (e.1, dd) ∈ ret.graph.nodes ∧
      dd.type = some "article" ∧ dd.text = some e.2) := by
  obtain ⟨scTxt, st1, st2, hscdef, hrp, hra, hret⟩ := generate_and_insert_ok_inv hrun
  subst hret
  have hnd2 : (nodeIds st2.graph).Nodup :=
    nodup_runArticles d.articles st1 st2 hra
      (nodup_runPrinciples d.principles _ st1 hrp (nodup_nodeIds_setNode _ hnd))
  refine ⟨rfl, rfl, ?_, ?_, ?_, ?_, ?_, ?_⟩
  · exact indexRows_nodup hnd2
  · intro nid
    exact indexRows_mem_fst nid
  · intro e he
    obtain ⟨dd, hdd, hty, htx, _⟩ := indexRows_mem he
    exact ⟨dd, hdd, hty, htx⟩
  · exact indexRows_nodup hnd2
  · intro nid
    exact indexRows_mem_fst nid
  · intro e he
    obtain ⟨dd, hdd, hty, htx, _⟩ := indexRows_mem he
    exact ⟨dd, hdd, hty, htx⟩

/-- Witness for the amended C5: the concrete successful run of the C5 data;
both rebuilt indexes satisfy the characterization (here the rebuilt article
index is empty because the created article node has no `text`). -/
theorem C5_index_rebuild_amended_witness :
    generate_and_insert cfgC5 (some dC5) (⟨[], []⟩ : Graph) "q" = .ok retC5 ∧
    retC5.outcome = .success resC5 ∧
    (nodeIds (⟨[], []⟩ : Graph)).Nodup ∧
    (retC5.pIndex = rebuildPrincipleIndex retC5.graph ∧
     retC5.aIndex = rebuildArticleIndex retC5.graph ∧
     (retC5.pIndex.map (·.1)).Nodup ∧
     (∀ nid, nid ∈ retC5.pIndex.map (·.1) ↔
       ∃ dd, (nid, dd) ∈ retC5.graph.nodes ∧ dd.type = some "principle" ∧
         ∃ t, dd.text = some t ∧ t ≠ "") ∧
     (∀ e ∈ retC5.pIndex, ∃ dd, (e.1, dd) ∈ retC5.graph.nodes ∧
       dd.type = some "principle" ∧ dd.text = some e.2) ∧
     (retC5.aIndex.map (·.1)).Nodup ∧
     (∀ nid, nid ∈ retC5.aIndex.map (·.1) ↔
       ∃ dd, (nid, dd) ∈ retC5.graph.nodes ∧ dd.type = some "article" ∧
         ∃ t, dd.text = some t ∧ t ≠ "") ∧
     (∀ e ∈ retC5.aIndex, ∃ dd, (e.1, dd) ∈ retC5.graph.nodes ∧
       dd.type = some "article" ∧ dd.text = some e.2)) :=
  ⟨by decide, by decide, by decide,
   C5_index_rebuild_amended cfgC5 dC5 ⟨[], []⟩ "q" retC5 resC5
     (by decide) (by decide) (by decide)⟩
